import Mathlib

/-!
# nuntium: message store and telepathy service

A shallow embedding of `storage/storage.go` and `telepathy/service.go`.

The file system is a finite map from locations to byte strings, threaded
explicitly through every operation.  Go `error` results are `Option Err`
(`none` is `nil`), results with a value are `Except Err _`.  The behaviour of
the libraries the sources call (`path`, `path/filepath`, `xdg`, `os`, `bufio`,
`encoding/json`, `dbus`) is modelled by small executable functions; whatever
the environment decides (which paths cannot be prepared or created, which
encodings and which flushes fail part-way, how records are laid out as JSON) is a
parameter.
-/

namespace Nuntium

/-! ## `path.Join`, `path.Clean`, `filepath.Base` -/

/-- Split a byte sequence at every occurrence of a separator, as Go `strings.Split` does
for a one-byte separator; the result is never empty. -/
def splitChar (sep : Char) : List Char → List (List Char)
  | [] => [[]]
  | c :: cs =>
    if c = sep then [] :: splitChar sep cs
    else
      match splitChar sep cs with
      | [] => [[c]]
      | h :: t => (c :: h) :: t

/-- The elements of a slash-separated path. -/
def splitSlash (l : List Char) : List (List Char) := splitChar '/' l

/-- One element of `path.Clean`: the stack holds the elements kept so far, last first.
Empty and `.` elements vanish, `..` removes the element before it unless there is none
(or only `..` elements), in which case it is kept for a relative path and dropped for
a rooted one. -/
def cleanStep (rooted : Bool) (stack : List (List Char)) (c : List Char) : List (List Char) :=
  if c = [] ∨ c = ['.'] then stack
  else if c = ['.', '.'] then
    match stack with
    | [] => if rooted then [] else [c]
    | t :: rest => if t = ['.', '.'] then c :: stack else rest
  else c :: stack

/-- The elements `path.Clean` keeps, in order. -/
def cleanElems (rooted : Bool) (l : List Char) : List (List Char) :=
  ((splitSlash l).foldl (cleanStep rooted) []).reverse

/-- Join elements with single slashes. -/
def joinSlash : List (List Char) → List Char
  | [] => []
  | [x] => x
  | x :: y :: r => x ++ '/' :: joinSlash (y :: r)

/-- Go `path.Clean` on a byte sequence. -/
def cleanChars (l : List Char) : List Char :=
  match l with
  | [] => ['.']
  | c :: _ =>
    let rooted : Bool := c = '/'
    let body := joinSlash (cleanElems rooted l)
    if rooted then '/' :: body
    else if body = [] then ['.'] else body

/-- Go `path.Clean`. -/
def pathClean (s : String) : String := String.mk (cleanChars s.data)

/-- Go `path.Join` of two elements: empty elements are ignored, the rest is joined with
a slash and cleaned; the join of two empty elements is empty. -/
def pathJoin (a b : String) : String :=
  if a = "" ∧ b = "" then ""
  else if a = "" then pathClean b
  else pathClean (a ++ "/" ++ b)

/-- Go `filepath.Base`: the last element of the path, after removing trailing slashes;
`.` for the empty path and `/` for a path of slashes only. -/
def filepathBase (p : String) : String :=
  if p = "" then "."
  else
    let stripped := p.data.reverse.dropWhile (fun c => c == '/')
    let base := (stripped.takeWhile (fun c => c != '/')).reverse
    if base = [] then "/" else String.mk base

/-! ## File system -/

/-- The base directory a location is resolved against: the XDG data home, the XDG
cache home, or none of them (any other place, such as a temporary download). -/
inductive Root
  | data
  | cache
  | other
deriving DecidableEq, Repr

/-- A location on disk: a resource name under one of the base directories.  Different
names are different files. -/
structure Path where
  root : Root
  name : String
deriving DecidableEq, Repr

/-- The file system: the content of every existing file. -/
abbrev FS := Path → Option String

/-- The file system without any file. -/
def FS.empty : FS := fun _ => none

/-- Set the content of a file, creating it when missing. -/
def FS.write (fs : FS) (p : Path) (content : String) : FS :=
  fun q => if q = p then some content else fs q

/-- Delete a file. -/
def FS.erase (fs : FS) (p : Path) : FS :=
  fun q => if q = p then none else fs q

/-- Does the file exist. -/
def FS.has (fs : FS) (p : Path) : Bool := (fs p).isSome

/-! ## Records and errors -/

/-- Modelled from the spec: the processing states of a MessageRecord, the constants
`NOTIFICATION`, `DOWNLOADED`, `RETRIEVED` and `DRAFT` of the storage package (declared
outside `storage.go`). -/
inductive StateName
  | NOTIFICATION
  | DOWNLOADED
  | RETRIEVED
  | DRAFT
deriving DecidableEq, Repr

/-- Modelled from the spec: the persisted MessageRecord `MMSState` (declared outside
`storage.go`), with the two fields `storage.go` sets; a field left out of a literal is empty. -/
structure MMSState where
  State : StateName
  ContentLocation : String := ""
deriving DecidableEq, Repr

/-- Modelled from the spec: the notification record `mms.MNotificationInd` (declared in the
mms package), "containing at least a content location and a UUID"; `Rest` stands for
all its other fields. -/
structure MNotificationInd where
  UUID : String
  ContentLocation : String
  Rest : String := ""
deriving DecidableEq, Repr

/-- Errors the operations return. -/
inductive Err
  /-- xdg `Find` could not locate the resource. -/
  | notFound (resource : String)
  /-- os: no such file. -/
  | notExist (p : Path)
  /-- xdg `Ensure` could not prepare the path. -/
  | ensure (p : Path)
  /-- os `Create` could not create the file. -/
  | create (p : Path)
  /-- the JSON encoder failed while writing. -/
  | encode
  /-- the arguments of a bus call do not have the expected shape. -/
  | args
  /-- the bus connection could not send. -/
  | send
  /-- the error made by `errors.New` or `fmt.Errorf`. -/
  | text (msg : String)
deriving DecidableEq, Repr

/-- The text of an error, Go `err.Error()`. -/
def Err.Error : Err → String
  | .notFound resource => "could not locate " ++ resource
  | .notExist p => "remove " ++ p.name ++ ": no such file or directory"
  | .ensure p => "cannot prepare " ++ p.name
  | .create p => "open " ++ p.name ++ ": cannot create"
  | .encode => "json: write failed"
  | .args => "invalid arguments"
  | .send => "cannot send"
  | .text msg => msg

/-- What the environment decides for the store: which paths cannot be prepared or
created, which encodings fail (and after how many bytes), which flushes fail (and after
how many bytes), and the JSON layout of the two record types. -/
structure Env where
  ensureFails : Path → Bool
  createFails : Path → Bool
  encodeFails : Path → Option Nat
  flushFails : Path → Option Nat
  encodeState : MMSState → String
  decodeState : String → Option MMSState
  encodeInd : MNotificationInd → String
  decodeInd : String → Option MNotificationInd

/-- The bytes a flush of `bytes` leaves in the file at `p`: all of them, or the ones
written before the flush fails. -/
def Env.flushed (env : Env) (p : Path) (bytes : String) : String :=
  match env.flushFails p with
  | none => bytes
  | some m => bytes.take m

/-! ## Library operations -/

/-- Create the file, empty, when it is missing; an existing file stays as it is. -/
def FS.touch (fs : FS) (p : Path) : FS :=
  if fs.has p then fs else fs.write p ""

/-- The xdg `Ensure` of a base directory: the location of the resource under the base
directory's home, after preparing its parent directory and creating the file, empty, when
it is missing.  It fails when the directory cannot be prepared. -/
def xdgEnsure (env : Env) (root : Root) (resource : String) (fs : FS) : Except Err Path × FS :=
  if env.ensureFails ⟨root, resource⟩ then (.error (.ensure ⟨root, resource⟩), fs)
  else (.ok ⟨root, resource⟩, fs.touch ⟨root, resource⟩)

/-- The xdg `Find` of a base directory: the location of the resource when it exists. -/
def xdgFind (root : Root) (resource : String) (fs : FS) : Except Err Path :=
  if fs.has ⟨root, resource⟩ then .ok ⟨root, resource⟩ else .error (.notFound resource)

/-- Go `os.Create`: the file exists and is empty afterwards. -/
def osCreate (env : Env) (p : Path) (fs : FS) : Option Err × FS :=
  if env.createFails p then (some (.create p), fs) else (none, fs.write p "")

/-- Go `os.Remove`: fails when there is no such file. -/
def osRemove (p : Path) (fs : FS) : Option Err × FS :=
  if fs.has p then (none, fs.erase p) else (some (.notExist p), fs)

/-- Go `os.Rename`: moves the content, replacing the destination; fails when there is
no source file. -/
def osRename (src dst : Path) (fs : FS) : Option Err × FS :=
  match fs src with
  | none => (some (.notExist src), fs)
  | some content => (none, (fs.erase src).write dst content)

/-- A `bufio.Writer` over a freshly created file: the bytes it holds and the error it
has met (a writer that has met an error writes nothing more). -/
structure Writer where
  buf : String
  err : Option Err
deriving DecidableEq, Repr

/-- The `Encode` of a JSON encoder on a buffered writer over the file at `p`.  On success
the encoding is held by the writer.  An encoding that does not fit the writer's buffer of
4096 bytes is written through to the file, and a failure of that write is the error
`Encode` returns, the bytes written before it being in the file; the environment decides
whether and where that happens. -/
def jsonEncode (env : Env) (p : Path) (bytes : String) (fs : FS) : Option Err × Writer × FS :=
  match env.encodeFails p with
  | none => (none, { buf := bytes, err := none }, fs)
  | some n => (some .encode, { buf := "", err := some .encode }, fs.write p (bytes.take n))

/-- The `Flush` of the buffered writer: the bytes the writer holds go to the file, all of
them or the ones written before the flush fails; a writer that has met an error writes
nothing.  The result of `Flush` is not part of the model, as the sources discard it. -/
def flush (env : Env) (w : Writer) (p : Path) (fs : FS) : FS :=
  if w.err.isSome then fs else fs.write p (env.flushed p w.buf)

/-! ## storage.go -/

def SUBPATH : String := "nuntium/store"

/-- The resource name of the MessageRecord of a uuid. -/
def dbName (uuid : String) : String := pathJoin SUBPATH (uuid ++ ".db")

/-- The resource name of the notification record of a uuid. -/
def indName (uuid : String) : String := pathJoin SUBPATH (uuid ++ ".m-notify.ind")

/-- The resource name of the retrieved body of a uuid. -/
def mmsName (uuid : String) : String := pathJoin SUBPATH (uuid ++ ".mms")

/-- The resource name of the draft send request of a uuid. -/
def sendName (uuid : String) : String := pathJoin SUBPATH (uuid ++ ".m-send.req")

/-- The resource name of the send-response artifact of a uuid. -/
def respName (uuid : String) : String := pathJoin SUBPATH (uuid ++ ".m-notifyresp.ind")

def GetMMS (uuid : String) (fs : FS) : Except Err Path :=
  xdgFind .data (mmsName uuid) fs

def GetMNotificationInd (uuid : String) (fs : FS) : Except Err Path :=
  xdgFind .data (indName uuid) fs

/-- The function `writeState`.  `err` is the variable of the function body, assigned by
`os.Create`; the error of `Encode` is held by a new variable that the `if` statement
declares (`encErr` here) and is returned from there.  The deferred calls run last, in
reverse order: `Flush`, whose result is discarded, then the closure, which reads `err`. -/
def writeState (env : Env) (state : MMSState) (storePath : Path) (fs : FS) : Option Err × FS :=
  let (err, fs1) := osCreate env storePath fs
  if err.isSome then (err, fs1)
  else
    let (encErr, w, fs2) := jsonEncode env storePath (env.encodeState state) fs1
    let fs3 := flush env w storePath fs2
    let fs4 := if err.isSome then (osRemove storePath fs3).2 else fs3
    (encErr, fs4)

def Create (env : Env) (uuid contentLocation : String) (fs : FS) : Option Err × FS :=
  let state : MMSState := { State := .NOTIFICATION, ContentLocation := contentLocation }
  match xdgEnsure env .data (dbName uuid) fs with
  | (.error err, fs0) => (some err, fs0)
  | (.ok storePath, fs1) => writeState env state storePath fs1

def Destroy (env : Env) (uuid : String) (fs : FS) : Option Err × FS :=
  match xdgEnsure env .data (dbName uuid) fs with
  | (.error err, fs0) => (some err, fs0)
  | (.ok storePath, fs1) =>
    match osRemove storePath fs1 with
    | (some err, fs0) => (some err, fs0)
    | (none, fs2) =>
      match GetMNotificationInd uuid fs2 with
      | .ok mNotificationIndPath => osRemove mNotificationIndPath fs2
      | .error _ =>
        match GetMMS uuid fs2 with
        | .ok mmsPath => osRemove mmsPath fs2
        | .error err => (some err, fs2)

def CreateResponseFile (env : Env) (uuid : String) (fs : FS) : Except Err Path × FS :=
  match xdgEnsure env .cache (respName uuid) fs with
  | (.error err, fs0) => (.error err, fs0)
  | (.ok filePath, fs1) =>
    match osCreate env filePath fs1 with
    | (some err, fs0) => (.error err, fs0)
    | (none, fs2) => (.ok filePath, fs2)

/-- The function `UpdateFailed`.  As in `writeState`, `err` is the variable of the function
body, last assigned by `os.Create`, and the deferred closure reads it after the deferred
`Flush`; the error of `Encode` is held by a variable of the `if` statement. -/
def UpdateFailed (env : Env) (mNotificationInd : MNotificationInd) (fs : FS) : Option Err × FS :=
  let removed : Option Err × FS :=
    match GetMMS mNotificationInd.UUID fs with
    | .ok mmsPath => osRemove mmsPath fs
    | .error _ => (none, fs)
  match removed with
  | (some err, fs0) => (some err, fs0)
  | (none, fs1) =>
    match xdgEnsure env .data (indName mNotificationInd.UUID) fs1 with
    | (.error err, fs0) => (some err, fs0)
    | (.ok mNotificationIndPath, fs2) =>
      let (err, fs3) := osCreate env mNotificationIndPath fs2
      if err.isSome then (err, fs3)
      else
        let (encErr, w, fs4) :=
          jsonEncode env mNotificationIndPath (env.encodeInd mNotificationInd) fs3
        let fs5 := flush env w mNotificationIndPath fs4
        let fs6 := if err.isSome then (osRemove mNotificationIndPath fs5).2 else fs5
        (encErr, fs6)

def UpdateDownloaded (env : Env) (uuid : String) (filePath : Path) (fs : FS) : Option Err × FS :=
  match xdgEnsure env .data (mmsName uuid) fs with
  | (.error err, fs0) => (some err, fs0)
  | (.ok mmsPath, fs0) =>
    match osRename filePath mmsPath fs0 with
    | (some err, fs1) => (some err, (osRemove mmsPath fs1).2)
    | (none, fs1) =>
      let removed : Option Err × FS :=
        match GetMNotificationInd uuid fs1 with
        | .ok mNotificationIndPath => osRemove mNotificationIndPath fs1
        | .error _ => (none, fs1)
      match removed with
      | (some err, fs2) => (some err, fs2)
      | (none, fs2) =>
        let state : MMSState := { State := .DOWNLOADED }
        match xdgFind .data (dbName uuid) fs2 with
        | .error err => (some err, fs2)
        | .ok storePath => writeState env state storePath fs2

def UpdateRetrieved (env : Env) (uuid : String) (fs : FS) : Option Err × FS :=
  let state : MMSState := { State := .RETRIEVED }
  match xdgFind .data (dbName uuid) fs with
  | .error err => (some err, fs)
  | .ok storePath => writeState env state storePath fs

def CreateSendFile (env : Env) (uuid : String) (fs : FS) : Except Err Path × FS :=
  let state : MMSState := { State := .DRAFT }
  match xdgEnsure env .data (dbName uuid) fs with
  | (.error err, fs0) => (.error err, fs0)
  | (.ok storePath, fs1) =>
    match writeState env state storePath fs1 with
    | (some err, fs2) => (.error err, (osRemove storePath fs2).2)
    | (none, fs2) =>
      match xdgEnsure env .cache (sendName uuid) fs2 with
      | (.error err, fs3) => (.error err, fs3)
      | (.ok filePath, fs3) =>
        match osCreate env filePath fs3 with
        | (some err, fs4) => (.error err, fs4)
        | (none, fs4) => (.ok filePath, fs4)

/-! ## Bus values -/

/-- A bus object path. -/
abbrev ObjectPath := String

/-- The identity of a retry channel (a Go channel of notification records). -/
abbrev ChanId := Nat

structure Attachment where
  Id : String
  MediaType : String
  FilePath : Path
  Offset : Nat
  Length : Nat
deriving DecidableEq, Repr

structure OutAttachment where
  Id : String
  ContentType : String
  FilePath : String
deriving DecidableEq, Repr

/-- The value inside a `dbus.Variant`; `other` is a value of any type not listed, given
by the name of its Go type. -/
inductive Variant
  | str (s : String)
  | objPath (p : ObjectPath)
  | bool (b : Bool)
  | strs (l : List String)
  | attachments (l : List Attachment)
  | other (typeName : String)
deriving DecidableEq, Repr

/-- Go `reflect.ValueOf(v).String()`: the string itself for a value of string kind, the
name of the type between `<` and ` Value>` for any other. -/
def Variant.reflectString : Variant → String
  | .str s => s
  | .objPath p => p
  | .bool _ => "<bool Value>"
  | .strs _ => "<[]string Value>"
  | .attachments _ => "<[]telepathy.Attachment Value>"
  | .other typeName => "<" ++ typeName ++ " Value>"

/-- A Go `map[string]dbus.Variant`, as the list of its entries. -/
abbrev PropMap := List (String × Variant)

/-- The map assignment `m[k] = v`. -/
def PropMap.set (m : PropMap) (k : String) (v : Variant) : PropMap :=
  (k, v) :: m.filter (fun e => e.1 != k)

/-- The map read `m[k]`. -/
def PropMap.get (m : PropMap) (k : String) : Option Variant := m.lookup k

structure Payload where
  Path : ObjectPath
  Properties : PropMap
deriving DecidableEq, Repr

/-- One argument in the body of a bus message. -/
inductive Arg
  | str (s : String)
  | objPath (p : ObjectPath)
  | variant (v : Variant)
  | strs (l : List String)
  | outAttachments (l : List OutAttachment)
  | props (m : PropMap)
  | payloads (l : List Payload)
deriving DecidableEq, Repr

/-- A method call received from the bus (`dbus.Message`). -/
structure Message where
  Interface : String
  Member : String
  Path : ObjectPath
  Body : List Arg
deriving DecidableEq, Repr

/-- A message the service hands to the connection: the reply to a call (a method return
or an error) or a signal. -/
inductive BusMsg
  | methodReturn (call : Message) (args : List Arg)
  | error (call : Message) (name text : String)
  | signal (path : ObjectPath) (iface member : String) (args : List Arg)
deriving DecidableEq, Repr

/-- Is the message the reply to a call. -/
def BusMsg.isReply : BusMsg → Bool
  | .methodReturn _ _ => true
  | .error _ _ _ => true
  | .signal _ _ _ _ => false

structure OutgoingMessage where
  Recipients : List String
  Attachments : List OutAttachment
  Reply : BusMsg
deriving DecidableEq, Repr

/-- Modelled from the spec: the Message Object `MessageInterface` (declared outside
`service.go`): "its bus object path" and, from the use in `service.go`, the retry channel
remembered for it, `nil` until assigned. -/
structure MessageInterface where
  objectPath : ObjectPath
  mNotificationIndChan : Option ChanId := none
deriving DecidableEq, Repr

/-- One part of a retrieved message, as `GetDataParts` returns it. -/
structure DataPart where
  ContentId : String
  MediaType : String
  Offset : Nat
  Data : String
deriving DecidableEq, Repr

/-- Modelled from the spec: the retrieval result `mms.MRetrieveConf` (declared in the mms
package), "containing sender, recipients, subject, inline content, and a list of attachment
parts"; `Smil` is what `GetSmil` returns (`none` when it fails), `DataParts` what
`GetDataParts` returns. -/
structure MRetrieveConf where
  UUID : String
  From : String
  To : List String
  Subject : String
  Date : Nat
  Smil : Option String
  DataParts : List DataPart
deriving DecidableEq, Repr

/-- The constants of the telepathy package declared outside `service.go`, and what the
bus library, the clock and the preferred-context storage decide. -/
structure Cfg where
  MMS_SERVICE_DBUS_IFACE : String
  MMS_DBUS_PATH : String
  PLMN : String
  identityProperty : String
  useDeliveryReportsProperty : String
  modemObjectPathProperty : String
  preferredContextProperty : String
  propertyChangedSignal : String
  messageRemovedSignal : String
  messageAddedSignal : String
  formatTime : Nat → String
  appendFails : List Arg → Bool
  sendFails : BusMsg → Bool
  setContextFails : String → Bool

structure MMSService where
  payload : Payload
  Properties : PropMap
  messageHandlers : ObjectPath → Option MessageInterface
  identity : String

/-- Everything the service acts on: the file system, the persisted preferred contexts
(by identity), the messages handed to the connection, the outbound channel, the
notifications sent on retry channels, and the service object itself. -/
structure World where
  fs : FS
  contexts : String → Option ObjectPath
  sent : List BusMsg
  outMessage : List OutgoingMessage
  retries : List (ChanId × MNotificationInd)
  service : MMSService

/-! ## Bus library -/

/-- The `Send` of the connection: the message is handed to the connection. -/
def connSend (cfg : Cfg) (m : BusMsg) (w : World) : Option Err × World :=
  (if cfg.sendFails m then some Err.send else none, { w with sent := w.sent ++ [m] })

/-- The `AppendArgs` of a message. -/
def appendArgs (cfg : Cfg) (m : BusMsg) (args : List Arg) : Option Err × BusMsg :=
  if cfg.appendFails args then (some Err.args, m)
  else
    match m with
    | .methodReturn call a => (none, .methodReturn call (a ++ args))
    | .signal path iface member a => (none, .signal path iface member (a ++ args))
    | .error call name text => (none, .error call name text)

/-- The `Args` of a call decoded as a string and a variant. -/
def argsSetProperty (msg : Message) : Except Err (String × Variant) :=
  match msg.Body with
  | [.str name, .variant value] => .ok (name, value)
  | _ => .error .args

/-- The `Args` of a call decoded as a list of strings and a list of attachments. -/
def argsSendMessage (msg : Message) : Except Err (List String × List OutAttachment) :=
  match msg.Body with
  | [.strs recipients, .outAttachments attachments] => .ok (recipients, attachments)
  | _ => .error .args

/-- Go `strings.HasSuffix`. -/
def hasSuffix (s suffix : String) : Bool := suffix.data.isSuffixOf s.data

/-- The slice `s[:len(s)-len(suffix)]`. -/
def dropSuffix (s suffix : String) : String :=
  String.mk (s.data.take (s.data.length - suffix.data.length))

/-- Go `strings.Join` with separator `,`. -/
def joinComma (l : List String) : String := ",".intercalate l

/-- Go `strings.Split` with separator `,`. -/
def splitComma (s : String) : List String := (splitChar ',' s.data).map String.mk

/-- Modelled from the spec: `storage.GetPreferredContext` (declared outside `storage.go`),
the preferred context "persisted per identity"; an error and the empty path when none
is stored. -/
def storage.GetPreferredContext (identity : String) (w : World) : ObjectPath × Option Err :=
  match w.contexts identity with
  | some pc => (pc, none)
  | none => ("", some (.notFound identity))

/-- Modelled from the spec: `storage.SetPreferredContext` (declared outside `storage.go`),
which persists the preferred context of an identity. -/
def storage.SetPreferredContext (cfg : Cfg) (identity : String) (context : ObjectPath)
    (w : World) : Option Err × World :=
  if cfg.setContextFails identity then (some (.text "cannot persist the preferred context"), w)
  else (none, { w with contexts := fun i => if i = identity then some context else w.contexts i })

/-- Modelled from the spec: `NewMessageInterface` (declared outside `service.go`), a new
Message Object at the path, without a retry channel. -/
def NewMessageInterface (objectPath : ObjectPath) : MessageInterface :=
  { objectPath := objectPath }

/-- The assignment `service.messageHandlers[path] = h`. -/
def MMSService.setHandler (s : MMSService) (path : ObjectPath) (h : MessageInterface) :
    MMSService :=
  { s with messageHandlers := fun p => if p = path then some h else s.messageHandlers p }

/-- The statement `delete(service.messageHandlers, path)`. -/
def MMSService.deleteHandler (s : MMSService) (path : ObjectPath) : MMSService :=
  { s with messageHandlers := fun p => if p = path then none else s.messageHandlers p }

/-! ## service.go -/

def NewMMSService (cfg : Cfg) (modemObjPath : ObjectPath) (identity : String)
    (useDeliveryReports : Bool) : MMSService :=
  let properties : PropMap := PropMap.set [] cfg.identityProperty (.str identity)
  let serviceProperties : PropMap :=
    PropMap.set (PropMap.set [] cfg.useDeliveryReportsProperty (.bool useDeliveryReports))
      cfg.modemObjectPathProperty (.objPath modemObjPath)
  let payload : Payload :=
    { Path := cfg.MMS_DBUS_PATH ++ "/" ++ identity, Properties := properties }
  { payload := payload
    Properties := serviceProperties
    messageHandlers := fun _ => none
    identity := identity }

def getUUIDFromObjectPath (objectPath : ObjectPath) : Except Err String :=
  let str := objectPath
  let defaultError := Err.text (str ++ " is not a proper object path for a Message")
  if str = "" then .error defaultError
  else
    let uuid := filepathBase str
    if uuid = "" ∨ uuid = ".." ∨ uuid = "." then .error defaultError
    else .ok uuid

def genMessagePath (cfg : Cfg) (service : MMSService) (uuid : String) : ObjectPath :=
  cfg.MMS_DBUS_PATH ++ "/" ++ service.identity ++ "/" ++ uuid

def GetPreferredContext (w : World) : ObjectPath × Option Err :=
  storage.GetPreferredContext w.service.identity w

def SetPreferredContext (cfg : Cfg) (context : ObjectPath) (w : World) : Option Err × World :=
  let (pc, err) := GetPreferredContext w
  if err.isSome ∧ context = pc then (none, w)
  else
    match storage.SetPreferredContext cfg w.service.identity context w with
    | (some err, w0) => (some err, w0)
    | (none, w1) =>
      let signal := BusMsg.signal w1.service.payload.Path cfg.MMS_SERVICE_DBUS_IFACE
        cfg.propertyChangedSignal []
      match appendArgs cfg signal [.str cfg.preferredContextProperty, .variant (.objPath context)] with
      | (some err, _) => (some err, w1)
      | (none, signal1) => connSend cfg signal1 w1

def setProperty (cfg : Cfg) (msg : Message) (w : World) : Option Err × World :=
  match argsSetProperty msg with
  | .error err => (some err, w)
  | .ok (propertyName, propertyValue) =>
    if propertyName = cfg.preferredContextProperty then
      let preferredContextObjectPath : ObjectPath := propertyValue.reflectString
      let w1 := { w with service := { w.service with
        Properties := w.service.Properties.set cfg.preferredContextProperty
          (.objPath preferredContextObjectPath) } }
      SetPreferredContext cfg preferredContextObjectPath w1
    else
      let _ := Err.text "property cannot be set"
      (some (.text "unhandled property"), w)

/-- The method `MessageRemoved`; `none` is the run-time panic of calling `Close` through
the nil handler of a path that is not registered. -/
def MessageRemoved (cfg : Cfg) (env : Env) (objectPath : ObjectPath) (w : World) :
    Option (Option Err × World) :=
  match w.service.messageHandlers objectPath with
  | none => none
  | some _ =>
    let w1 := { w with service := w.service.deleteHandler objectPath }
    match getUUIDFromObjectPath objectPath with
    | .error err => some (some err, w1)
    | .ok uuid =>
      match Destroy env uuid w1.fs with
      | (some err, fs0) => some (some err, { w1 with fs := fs0 })
      | (none, fs1) =>
        let w2 := { w1 with fs := fs1 }
        let signal := BusMsg.signal w2.service.payload.Path cfg.MMS_SERVICE_DBUS_IFACE
          cfg.messageRemovedSignal []
        match appendArgs cfg signal [.objPath objectPath] with
        | (some err, _) => some (some err, w2)
        | (none, signal1) => some (connSend cfg signal1 w2)

def MessageAdded (cfg : Cfg) (msgPayload : Payload) (w : World) : Option Err × World :=
  let signal := BusMsg.signal w.service.payload.Path cfg.MMS_SERVICE_DBUS_IFACE
    cfg.messageAddedSignal []
  match appendArgs cfg signal [.objPath msgPayload.Path, .props msgPayload.Properties] with
  | (some err, _) => (some err, w)
  | (none, signal1) => connSend cfg signal1 w

/-- The method `IncomingMessageFailAdded`; `now` is the clock reading of `time.Now()`. -/
def IncomingMessageFailAdded (cfg : Cfg) (now : Nat) (UUID sender : String)
    (mNotificationIndChan : Option ChanId) (w : World) : Option Err × World :=
  let params : PropMap := PropMap.set [] "Status" (.str "received")
  let date := cfg.formatTime now
  let params := params.set "Date" (.str date)
  let params :=
    if hasSuffix sender cfg.PLMN then params.set "Sender" (.str (dropSuffix sender cfg.PLMN))
    else params
  let payload : Payload := { Path := genMessagePath cfg w.service UUID, Properties := params }
  let handler := { NewMessageInterface payload.Path with
    mNotificationIndChan := mNotificationIndChan }
  MessageAdded cfg payload { w with service := w.service.setHandler payload.Path handler }

def parseDate (cfg : Cfg) (unixTime : Nat) : String := cfg.formatTime unixTime

def parseRecipients (cfg : Cfg) (recipients : String) : List String :=
  (splitComma recipients).map (fun r => if hasSuffix r cfg.PLMN then dropSuffix r cfg.PLMN else r)

/-- The attachment loop of `parseMessage`: every part looks the retrieved body up in
the store and fails when it is missing. -/
def parseAttachments (uuid : String) (fs : FS) : List DataPart → Except Err (List Attachment)
  | [] => .ok []
  | d :: ds =>
    match GetMMS uuid fs with
    | .error err => .error err
    | .ok filePath =>
      match parseAttachments uuid fs ds with
      | .error err => .error err
      | .ok rest =>
        .ok ({ Id := d.ContentId, MediaType := d.MediaType, FilePath := filePath,
               Offset := d.Offset % 2 ^ 64, Length := d.Data.utf8ByteSize % 2 ^ 64 } :: rest)

def parseMessage (cfg : Cfg) (mRetConf : MRetrieveConf) (w : World) : Except Err Payload :=
  let params : PropMap := PropMap.set [] "Status" (.str "received")
  let date := parseDate cfg mRetConf.Date
  let params := params.set "Date" (.str date)
  let params :=
    if mRetConf.Subject ≠ "" then params.set "Subject" (.str mRetConf.Subject) else params
  let sender := mRetConf.From
  let params :=
    if hasSuffix mRetConf.From cfg.PLMN then
      params.set "Sender" (.str (dropSuffix sender cfg.PLMN))
    else params
  let params := params.set "Recipients" (.strs (parseRecipients cfg (joinComma mRetConf.To)))
  let params :=
    match mRetConf.Smil with
    | some smil => params.set "Smil" (.str smil)
    | none => params
  match parseAttachments mRetConf.UUID w.fs mRetConf.DataParts with
  | .error err => .error err
  | .ok attachments =>
    let params := params.set "Attachments" (.attachments attachments)
    .ok { Path := genMessagePath cfg w.service mRetConf.UUID, Properties := params }

def IncomingMessageAdded (cfg : Cfg) (mRetConf : MRetrieveConf) (w : World) :
    Option Err × World :=
  match parseMessage cfg mRetConf w with
  | .error err => (some err, w)
  | .ok payload =>
    MessageAdded cfg payload
      { w with service := w.service.setHandler payload.Path (NewMessageInterface payload.Path) }

/-- The notification record the deletion loop reads for a path: `none` is the `nil` of the
source, returned when the path has no uuid, no notification record exists, or the
record does not decode. -/
def readNotification (env : Env) (msgObjectPath : ObjectPath) (fs : FS) :
    Option MNotificationInd :=
  match getUUIDFromObjectPath msgObjectPath with
  | .error _ => none
  | .ok uuid =>
    match GetMNotificationInd uuid fs with
    | .error _ => none
    | .ok mNotificationIndPath =>
      match fs mNotificationIndPath with
      | none => none
      | some content => env.decodeInd content

/-- One iteration of the loop of `watchMessageDeleteCalls`, for the path taken from the
deletion channel; `none` is the run-time panic of reading the retry channel through the
nil handler of a path that is not registered. -/
def watchMessageDeleteCallsStep (cfg : Cfg) (env : Env) (msgObjectPath : ObjectPath) (w : World) :
    Option World :=
  let mNotificationInd := readNotification env msgObjectPath w.fs
  match w.service.messageHandlers msgObjectPath with
  | none => none
  | some handler =>
    let mNotificationIndChan := handler.mNotificationIndChan
    match MessageRemoved cfg env msgObjectPath w with
    | none => none
    | some (_, w1) =>
      match mNotificationInd with
      | none => some w1
      | some ind =>
        match mNotificationIndChan with
        | none => some w1
        | some ch =>
          let w2 := { w1 with fs := (Create env ind.UUID ind.ContentLocation w1.fs).2 }
          some { w2 with retries := w2.retries ++ [(ch, ind)] }

/-- The replies handed to the connection so far. -/
def World.replies (w : World) : List BusMsg := w.sent.filter BusMsg.isReply

/-- One iteration of the loop of `watchDBusMethodCalls`, for the call taken from the
call channel. -/
def watchDBusMethodCallsStep (cfg : Cfg) (msg : Message) (w : World) : World :=
  if msg.Interface ≠ cfg.MMS_SERVICE_DBUS_IFACE then
    let _reply := BusMsg.error msg "org.freedesktop.DBus.Error.UnknownInterface"
      ("No such interface " ++ "\x27" ++ msg.Interface ++ "\x27" ++ " at object path " ++ "\x27" ++ msg.Path ++ "\x27")
    w
  else if msg.Member = "GetMessages" then
    let reply := BusMsg.methodReturn msg []
    let payload : List Payload := []
    let reply :=
      match appendArgs cfg reply [.payloads payload] with
      | (some _, _) => BusMsg.error msg "Error.InvalidArguments" "Cannot parse services"
      | (none, reply1) => reply1
    (connSend cfg reply w).2
  else if msg.Member = "GetProperties" then
    let reply := BusMsg.methodReturn msg []
    let w1 :=
      match GetPreferredContext w with
      | (pc, none) => { w with service := { w.service with
          Properties := w.service.Properties.set cfg.preferredContextProperty (.objPath pc) } }
      | (_, some _) => { w with service := { w.service with
          Properties := w.service.Properties.set cfg.preferredContextProperty (.objPath "/") } }
    let reply :=
      match appendArgs cfg reply [.props w1.service.Properties] with
      | (some _, _) => BusMsg.error msg "Error.InvalidArguments" "Cannot parse services"
      | (none, reply1) => reply1
    (connSend cfg reply w1).2
  else if msg.Member = "SetProperty" then
    match setProperty cfg msg w with
    | (some err, w1) =>
      (connSend cfg (BusMsg.error msg "Error.InvalidArguments" err.Error) w1).2
    | (none, w1) => (connSend cfg (BusMsg.methodReturn msg []) w1).2
  else if msg.Member = "SendMessage" then
    let reply := BusMsg.methodReturn msg []
    match argsSendMessage msg with
    | .error _ =>
      (connSend cfg (BusMsg.error msg "Error.InvalidArguments" "Cannot parse New Message") w).2
    | .ok (recipients, attachments) =>
      { w with outMessage := w.outMessage ++
          [{ Recipients := recipients, Attachments := attachments, Reply := reply }] }
  else
    (connSend cfg (BusMsg.error msg "org.freedesktop.DBus.Error.UnknownMethod"
      ("No such method " ++ "\x27" ++ msg.Member ++ "\x27" ++ " at object path " ++ "\x27" ++ msg.Path ++ "\x27")) w).2

/-- The method `watchMessageDeleteCalls`: the step, for every path that arrives on the
deletion channel until it is closed. -/
def watchMessageDeleteCalls (cfg : Cfg) (env : Env) : List ObjectPath → World → Option World
  | [], w => some w
  | msgObjectPath :: rest, w =>
    match watchMessageDeleteCallsStep cfg env msgObjectPath w with
    | none => none
    | some w1 => watchMessageDeleteCalls cfg env rest w1

/-- The method `watchDBusMethodCalls`: the step, for every call that arrives on the call
channel until it is closed. -/
def watchDBusMethodCalls (cfg : Cfg) : List Message → World → World
  | [], w => w
  | msg :: rest, w => watchDBusMethodCalls cfg rest (watchDBusMethodCallsStep cfg msg w)

/-! ## Sample environment -/

/-- A sample layout of a MessageRecord: the state name, a bar, the content location. -/
def sampleEncodeState (s : MMSState) : String :=
  (match s.State with
    | .NOTIFICATION => "notification"
    | .DOWNLOADED => "downloaded"
    | .RETRIEVED => "retrieved"
    | .DRAFT => "draft") ++ "|" ++ s.ContentLocation

/-- Reads the sample layout of a MessageRecord back. -/
def sampleDecodeState (s : String) : Option MMSState :=
  match splitChar '|' s.data with
  | [name, loc] =>
    if name = "notification".data then some { State := .NOTIFICATION, ContentLocation := String.mk loc }
    else if name = "downloaded".data then some { State := .DOWNLOADED, ContentLocation := String.mk loc }
    else if name = "retrieved".data then some { State := .RETRIEVED, ContentLocation := String.mk loc }
    else if name = "draft".data then some { State := .DRAFT, ContentLocation := String.mk loc }
    else none
  | _ => none

/-- A sample layout of a notification record: its three fields separated by bars. -/
def sampleEncodeInd (r : MNotificationInd) : String :=
  r.UUID ++ "|" ++ r.ContentLocation ++ "|" ++ r.Rest

/-- Reads the sample layout of a notification record back. -/
def sampleDecodeInd (s : String) : Option MNotificationInd :=
  match splitChar '|' s.data with
  | [uuid, loc, rest] =>
    some { UUID := String.mk uuid, ContentLocation := String.mk loc, Rest := String.mk rest }
  | _ => none

/-- An environment in which nothing fails. -/
def sampleEnv : Env :=
  { ensureFails := fun _ => false
    createFails := fun _ => false
    encodeFails := fun _ => none
    flushFails := fun _ => none
    encodeState := sampleEncodeState
    decodeState := sampleDecodeState
    encodeInd := sampleEncodeInd
    decodeInd := sampleDecodeInd }

/-- An environment in which every encoding fails after two bytes. -/
def encodeFailEnv : Env := { sampleEnv with encodeFails := fun _ => some 2 }

/-- An environment in which no path of the cache home can be prepared. -/
def cacheFailEnv : Env := { sampleEnv with ensureFails := fun p => p.root = .cache }

/-- The constants of the ofono MMS service, a bus on which nothing fails and a clock
that prints the number of seconds. -/
def sampleCfg : Cfg :=
  { MMS_SERVICE_DBUS_IFACE := "org.ofono.mms.Service"
    MMS_DBUS_PATH := "/org/ofono/mms"
    PLMN := "/TYPE=PLMN"
    identityProperty := "Identity"
    useDeliveryReportsProperty := "UseDeliveryReports"
    modemObjectPathProperty := "ModemObjectPath"
    preferredContextProperty := "PreferredContext"
    propertyChangedSignal := "PropertyChanged"
    messageRemovedSignal := "MessageRemoved"
    messageAddedSignal := "MessageAdded"
    formatTime := fun t => toString t
    appendFails := fun _ => false
    sendFails := fun _ => false
    setContextFails := fun _ => false }

/-- A notification record for the uuid `abc`. -/
def sampleInd : MNotificationInd := { UUID := "abc", ContentLocation := "http://x/y" }

/-- A fresh service for the identity `ril_0` over a given file system. -/
def sampleWorld (fs : FS) : World :=
  { fs := fs
    contexts := fun _ => none
    sent := []
    outMessage := []
    retries := []
    service := NewMMSService sampleCfg "/ril_0" "ril_0" false }

/-- A call on an interface the service does not implement. -/
def foreignCall : Message :=
  { Interface := "org.freedesktop.DBus.Introspectable", Member := "Introspect",
    Path := "/org/ofono/mms/ril_0", Body := [] }

/-- A `SetProperty` call for a property the service does not know. -/
def setUnknownCall : Message :=
  { Interface := "org.ofono.mms.Service", Member := "SetProperty",
    Path := "/org/ofono/mms/ril_0", Body := [.str "UseDeliveryReports", .variant (.bool true)] }

/-- A world in which the context `/ril_0/context1` is stored as preferred for `ril_0`. -/
def contextWorld : World :=
  { sampleWorld FS.empty with
    contexts := fun i => if i = "ril_0" then some "/ril_0/context1" else none }

/-- The store right after `Create`: a MessageRecord for `abc` and no artifact. -/
def recordOnlyFS : FS := (Create sampleEnv "abc" "http://x/y" FS.empty).2

/-- A store holding the MessageRecord, the notification record and a retrieved body
for `abc`. -/
def bothArtifactsFS : FS :=
  ((recordOnlyFS.write ⟨.data, indName "abc"⟩ (sampleEncodeInd sampleInd)).write
    ⟨.data, mmsName "abc"⟩ "body")

/-- A store holding a notification record for `abc` and no MessageRecord. -/
def artifactOnlyFS : FS := FS.empty.write ⟨.data, indName "abc"⟩ (sampleEncodeInd sampleInd)

/-- A store holding the MessageRecord and the notification record for `abc`, and a
downloaded body in a temporary file. -/
def downloadFS : FS :=
  ((recordOnlyFS.write ⟨.data, indName "abc"⟩ (sampleEncodeInd sampleInd)).write
    ⟨.other, "/tmp/body"⟩ "body")

/-- A retrieval result for `abc` without attachment parts. -/
def sampleRetrieveConf : MRetrieveConf :=
  { UUID := "abc", From := "+1234/TYPE=PLMN", To := ["+5678/TYPE=PLMN"], Subject := "hi",
    Date := 0, Smil := none, DataParts := [] }

/-- A store holding the MessageRecord and the notification record for `abc`. -/
def notificationFS : FS :=
  recordOnlyFS.write ⟨.data, indName "abc"⟩ (sampleEncodeInd sampleInd)

/-- The world after `IncomingMessageAdded` has registered the Message Object of `abc`,
over a store that holds a notification record for `abc`. -/
def addedWorld : World :=
  (IncomingMessageAdded sampleCfg sampleRetrieveConf (sampleWorld notificationFS)).2

/-- The world after `IncomingMessageFailAdded` has registered the Message Object of `abc`
with the retry channel 7, over a store that holds a notification record for `abc`. -/
def failAddedWorld : World :=
  (IncomingMessageFailAdded sampleCfg 0 "abc" "+1234/TYPE=PLMN" (some 7)
    (sampleWorld notificationFS)).2

/-- The files the store keeps for a uuid: the MessageRecord, the notification record and
the retrieved body under the data home, the draft send request and the send-response
artifact under the cache home. -/
def storeFiles (uuid : String) : List Path :=
  [⟨.data, dbName uuid⟩, ⟨.data, indName uuid⟩, ⟨.data, mmsName uuid⟩,
   ⟨.cache, sendName uuid⟩, ⟨.cache, respName uuid⟩]

/-- The normalization rule for addresses in the words of the specification: the carrier
suffix is stripped from an identifier that ends with it, any other identifier is kept
unchanged. -/
def normalizeAddress (cfg : Cfg) (identifier : String) : String :=
  if hasSuffix identifier cfg.PLMN then dropSuffix identifier cfg.PLMN else identifier

/-- A retrieval result for `abc` whose sender is a mail address, without the carrier suffix. -/
def mailRetrieveConf : MRetrieveConf :=
  { UUID := "abc", From := "alice@example.com", To := ["+5678/TYPE=PLMN", "bob@example.com"],
    Subject := "", Date := 0, Smil := none, DataParts := [] }

/-- The property set `parseMessage` builds for the retrieval result with the mail
sender. -/
def mailPayload : Payload :=
  { Path := "/org/ofono/mms/ril_0/abc"
    Properties :=
      [("Attachments", .attachments []),
       ("Recipients", .strs ["+5678", "bob@example.com"]),
       ("Date", .str "0"),
       ("Status", .str "received")] }

/-- A content location of 5000 bytes: a record that holds it does not fit the buffer of
the writer, so its encoding is written through to the file by `Encode`. -/
def longLocation : String := String.mk (List.replicate 5000 'a')

/-- A notification record for `abc` with the long content location. -/
def longInd : MNotificationInd := { UUID := "abc", ContentLocation := longLocation }

/-- An environment in which every flush fails before any byte is written. -/
def flushFailEnv : Env := { sampleEnv with flushFails := fun _ => some 0 }

/-! ## Paths of one uuid are distinct -/

theorem splitChar_of_not_mem (sep : Char) (e : List Char) (h : sep ∉ e) :
    splitChar sep e = [e] := by
  induction e with
  | nil => rfl
  | cons c cs ih =>
    have hc : c ≠ sep := fun hc => h (by simp [hc])
    have hcs : sep ∉ cs := fun hm => h (List.mem_cons_of_mem _ hm)
    simp [splitChar, hc, ih hcs]

theorem splitChar_append (sep : Char) (l e : List Char) (h : sep ∉ e) :
    ∃ init last, splitChar sep l = init ++ [last] ∧
      splitChar sep (l ++ e) = init ++ [last ++ e] := by
  induction l with
  | nil => exact ⟨[], [], rfl, by simpa using splitChar_of_not_mem sep e h⟩
  | cons c cs ih =>
    obtain ⟨init, last, h1, h2⟩ := ih
    by_cases hc : c = sep
    · exact ⟨[] :: init, last, by simp [splitChar, hc, h1], by simp [splitChar, hc, h2]⟩
    · cases init with
      | nil =>
        exact ⟨[], c :: last, by simp [splitChar, hc, h1], by simp [splitChar, hc, h2]⟩
      | cons i is =>
        exact ⟨(c :: i) :: is, last, by simp [splitChar, hc, h1], by simp [splitChar, hc, h2]⟩

theorem cleanStep_long (rooted : Bool) (stack : List (List Char)) (c : List Char)
    (h : 3 ≤ c.length) : cleanStep rooted stack c = c :: stack := by
  have h0 : c ≠ [] := by intro hc; simp [hc] at h
  have h1 : c ≠ ['.'] := by intro hc; simp [hc] at h
  have h2 : c ≠ ['.', '.'] := by intro hc; simp [hc] at h
  simp [cleanStep, h0, h1, h2]

theorem joinSlash_append_singleton (L : List (List Char)) (x : List Char) :
    ∃ p, joinSlash (L ++ [x]) = p ++ x := by
  induction L with
  | nil => exact ⟨[], rfl⟩
  | cons a as ih =>
    obtain ⟨p, hp⟩ := ih
    cases as with
    | nil => exact ⟨a ++ ['/'], by simp [joinSlash]⟩
    | cons b bs =>
      refine ⟨a ++ '/' :: p, ?_⟩
      simp only [List.cons_append] at hp ⊢
      simp [joinSlash, hp]

/-- A long last element without a slash survives `path.Clean`: the cleaned path ends as
the path does. -/
theorem cleanChars_getLast (l e : List Char) (hl : l ≠ []) (hs : '/' ∉ e) (he : 3 ≤ e.length) :
    (cleanChars (l ++ e)).getLast? = e.getLast? := by
  have hne : e ≠ [] := by intro hc; simp [hc] at he
  cases l with
  | nil => exact absurd rfl hl
  | cons c cs =>
    obtain ⟨init, last, -, h2⟩ := splitChar_append '/' (c :: cs) e hs
    have hlen : 3 ≤ (last ++ e).length := by simp; omega
    have hbody : ∀ rooted, ∃ p, joinSlash (cleanElems rooted (c :: cs ++ e)) = p ++ e := by
      intro rooted
      obtain ⟨p, hp⟩ := joinSlash_append_singleton
        ((init.foldl (cleanStep rooted) []).reverse) (last ++ e)
      refine ⟨p ++ last, ?_⟩
      simp only [cleanElems, splitSlash, h2, List.foldl_append, List.foldl_cons, List.foldl_nil,
        cleanStep_long _ _ _ hlen, List.reverse_cons, hp, List.append_assoc]
    obtain ⟨p, hp⟩ := hbody (decide (c = '/'))
    have hnil : p ++ e ≠ [] := by simp [hne]
    rw [List.cons_append] at hp
    simp only [List.cons_append, cleanChars, hp]
    split_ifs with h1
    · rw [← List.cons_append, List.getLast?_append_of_ne_nil _ hne]
    · rw [List.getLast?_append_of_ne_nil _ hne]

theorem pathJoin_getLast (uuid ext : String) (hs : '/' ∉ ext.data) (he : 3 ≤ ext.data.length) :
    (pathJoin SUBPATH (uuid ++ ext)).data.getLast? = ext.data.getLast? := by
  have h1 : SUBPATH ≠ "" := by decide
  have h2 : ¬ (SUBPATH = "" ∧ uuid ++ ext = "") := fun h => h1 h.1
  rw [pathJoin, if_neg h2, if_neg h1]
  simp only [pathClean, String.data_append]
  rw [← List.append_assoc]
  refine cleanChars_getLast _ _ ?_ hs he
  simp [SUBPATH]

theorem dbName_ne_mmsName (uuid : String) : dbName uuid ≠ mmsName uuid := by
  intro h
  have h1 := pathJoin_getLast uuid ".db" (by decide) (by decide)
  have h2 := pathJoin_getLast uuid ".mms" (by decide) (by decide)
  rw [dbName, mmsName] at h
  rw [h, h2] at h1
  exact absurd h1 (by decide)

theorem dbName_ne_indName (uuid : String) : dbName uuid ≠ indName uuid := by
  intro h
  have h1 := pathJoin_getLast uuid ".db" (by decide) (by decide)
  have h2 := pathJoin_getLast uuid ".m-notify.ind" (by decide) (by decide)
  rw [dbName, indName] at h
  rw [h, h2] at h1
  exact absurd h1 (by decide)

theorem mmsName_ne_indName (uuid : String) : mmsName uuid ≠ indName uuid := by
  intro h
  have h1 := pathJoin_getLast uuid ".mms" (by decide) (by decide)
  have h2 := pathJoin_getLast uuid ".m-notify.ind" (by decide) (by decide)
  rw [mmsName, indName] at h
  rw [h, h2] at h1
  exact absurd h1 (by decide)

/-! ## File system facts -/

@[simp] theorem FS.write_same (fs : FS) (p : Path) (c : String) : fs.write p c p = some c := by
  simp [FS.write]

theorem FS.write_other (fs : FS) (p q : Path) (c : String) (h : q ≠ p) :
    fs.write p c q = fs q := by
  simp [FS.write, h]

@[simp] theorem FS.erase_same (fs : FS) (p : Path) : fs.erase p p = none := by
  simp [FS.erase]

theorem FS.erase_other (fs : FS) (p q : Path) (h : q ≠ p) : fs.erase p q = fs q := by
  simp [FS.erase, h]

theorem FS.has_eq_true (fs : FS) (p : Path) : fs.has p = true ↔ ∃ c, fs p = some c := by
  simp [FS.has, Option.isSome_iff_exists]

theorem FS.has_eq_false (fs : FS) (p : Path) : fs.has p = false ↔ fs p = none := by
  cases h : fs p <;> simp [FS.has, h]

/-! ## What the writers do -/

theorem FS.write_write (fs : FS) (p : Path) (c d : String) :
    (fs.write p c).write p d = fs.write p d := by
  funext q
  by_cases h : q = p <;> simp [FS.write, h]

theorem FS.touch_write (fs : FS) (p : Path) (c : String) :
    (fs.touch p).write p c = fs.write p c := by
  unfold FS.touch
  split_ifs
  · rfl
  · exact FS.write_write fs p "" c

theorem FS.touch_erase (fs : FS) (p : Path) : (fs.touch p).erase p = fs.erase p := by
  unfold FS.touch
  split_ifs
  · rfl
  · funext q
    by_cases h : q = p <;> simp [FS.erase, FS.write, h]

theorem FS.touch_other (fs : FS) (p q : Path) (h : q ≠ p) : fs.touch p q = fs q := by
  unfold FS.touch
  split_ifs
  · rfl
  · exact FS.write_other fs p q "" h

theorem FS.touch_has (fs : FS) (p : Path) : (fs.touch p).has p = true := by
  unfold FS.touch
  split_ifs with h
  · exact h
  · simp [FS.has]

theorem FS.touch_has_other (fs : FS) (p q : Path) (h : q ≠ p) :
    (fs.touch p).has q = fs.has q := by
  simp [FS.has, FS.touch_other fs p q h]

/-- The result of `writeState` in every environment. -/
theorem writeState_eq (env : Env) (state : MMSState) (storePath : Path) (fs : FS) :
    writeState env state storePath fs =
      if env.createFails storePath then (some (.create storePath), fs)
      else
        match env.encodeFails storePath with
        | none => (none, fs.write storePath (env.flushed storePath (env.encodeState state)))
        | some n => (some .encode, fs.write storePath ((env.encodeState state).take n)) := by
  unfold writeState osCreate jsonEncode flush
  by_cases hc : env.createFails storePath = true
  · simp [hc]
  · cases he : env.encodeFails storePath <;> simp [hc, he, FS.write_write]

/-- The result of `UpdateFailed` in every environment. -/
theorem UpdateFailed_eq (env : Env) (r : MNotificationInd) (fs : FS) :
    UpdateFailed env r fs =
      let fs1 := if fs.has ⟨.data, mmsName r.UUID⟩ then fs.erase ⟨.data, mmsName r.UUID⟩ else fs
      let ind : Path := ⟨.data, indName r.UUID⟩
      if env.ensureFails ind then (some (.ensure ind), fs1)
      else if env.createFails ind then (some (.create ind), fs1.touch ind)
      else
        match env.encodeFails ind with
        | none => (none, fs1.write ind (env.flushed ind (env.encodeInd r)))
        | some n => (some .encode, fs1.write ind ((env.encodeInd r).take n)) := by
  unfold UpdateFailed GetMMS xdgFind xdgEnsure osCreate osRemove jsonEncode flush
  by_cases hm : fs.has ⟨.data, mmsName r.UUID⟩ = true <;>
  by_cases hen : env.ensureFails ⟨.data, indName r.UUID⟩ = true <;>
  by_cases hc : env.createFails ⟨.data, indName r.UUID⟩ = true <;>
  cases he : env.encodeFails ⟨.data, indName r.UUID⟩ <;>
  simp [hm, hen, hc, he, FS.write_write, FS.touch_write]

/-- The result of `Destroy` in every environment: the MessageRecord, present or just
created by `Ensure`, is always removed once the path is prepared. -/
theorem Destroy_eq (env : Env) (uuid : String) (fs : FS) :
    Destroy env uuid fs =
      let db : Path := ⟨.data, dbName uuid⟩
      let ind : Path := ⟨.data, indName uuid⟩
      let mms : Path := ⟨.data, mmsName uuid⟩
      if env.ensureFails db then (some (.ensure db), fs)
      else if fs.has ind then (none, (fs.erase db).erase ind)
      else if fs.has mms then (none, (fs.erase db).erase mms)
      else (some (.notFound (mmsName uuid)), fs.erase db) := by
  have hind : (fs.erase ⟨.data, dbName uuid⟩).has ⟨.data, indName uuid⟩
      = fs.has ⟨.data, indName uuid⟩ := by
    have : (⟨.data, indName uuid⟩ : Path) ≠ ⟨.data, dbName uuid⟩ := by
      simp [Ne.symm (dbName_ne_indName uuid)]
    simp [FS.has, FS.erase_other _ _ _ this]
  have hmms : (fs.erase ⟨.data, dbName uuid⟩).has ⟨.data, mmsName uuid⟩
      = fs.has ⟨.data, mmsName uuid⟩ := by
    have : (⟨.data, mmsName uuid⟩ : Path) ≠ ⟨.data, dbName uuid⟩ := by
      simp [Ne.symm (dbName_ne_mmsName uuid)]
    simp [FS.has, FS.erase_other _ _ _ this]
  unfold Destroy GetMNotificationInd GetMMS xdgFind xdgEnsure osRemove
  by_cases hen : env.ensureFails ⟨.data, dbName uuid⟩ = true <;>
  by_cases hi : fs.has ⟨.data, indName uuid⟩ = true <;>
  by_cases hm : fs.has ⟨.data, mmsName uuid⟩ = true <;>
  simp [hen, hi, hm, hind, hmms, FS.touch_has, FS.touch_erase]

/-! ## Failed writes -/

/-- C1: when the file is created and the encoding then fails, `writeState` and the
notification write of `UpdateFailed` return the encoder's error, yet the file they created
is still on disk, holding the bytes written before the failure, and the store finds it: the
removal in the deferred closure never runs. -/
theorem encode_failure_leaves_file (env : Env) (n : Nat) (state : MMSState) (storePath : Path)
    (r : MNotificationInd) (fs : FS)
    (hcreate : env.createFails storePath = false)
    (hencode : env.encodeFails storePath = some n)
    (hensureInd : env.ensureFails ⟨.data, indName r.UUID⟩ = false)
    (hcreateInd : env.createFails ⟨.data, indName r.UUID⟩ = false)
    (hencodeInd : env.encodeFails ⟨.data, indName r.UUID⟩ = some n) :
    ((writeState env state storePath fs).1 = some Err.encode ∧
      (writeState env state storePath fs).2 storePath = some ((env.encodeState state).take n)) ∧
    ((UpdateFailed env r fs).1 = some Err.encode ∧
      (UpdateFailed env r fs).2 ⟨.data, indName r.UUID⟩ = some ((env.encodeInd r).take n) ∧
      GetMNotificationInd r.UUID (UpdateFailed env r fs).2 = .ok ⟨.data, indName r.UUID⟩) := by
  refine ⟨?_, ?_⟩
  · simp [writeState_eq, hcreate, hencode]
  · simp [UpdateFailed_eq, hensureInd, hcreateInd, hencodeInd, GetMNotificationInd, xdgFind,
      FS.has]

/-- C1, at a concrete input: records with a content location of 5000 bytes, in an
environment where every encoding fails after two bytes. -/
theorem encode_failure_leaves_file_witness :
    ((writeState encodeFailEnv { State := .NOTIFICATION, ContentLocation := longLocation }
          ⟨.data, dbName "abc"⟩ FS.empty).1 = some Err.encode ∧
      (writeState encodeFailEnv { State := .NOTIFICATION, ContentLocation := longLocation }
          ⟨.data, dbName "abc"⟩ FS.empty).2 ⟨.data, dbName "abc"⟩
        = some ((encodeFailEnv.encodeState
            { State := .NOTIFICATION, ContentLocation := longLocation }).take 2)) ∧
    ((UpdateFailed encodeFailEnv longInd FS.empty).1 = some Err.encode ∧
      (UpdateFailed encodeFailEnv longInd FS.empty).2 ⟨.data, indName longInd.UUID⟩
        = some ((encodeFailEnv.encodeInd longInd).take 2) ∧
      GetMNotificationInd longInd.UUID (UpdateFailed encodeFailEnv longInd FS.empty).2
        = .ok ⟨.data, indName longInd.UUID⟩) :=
  encode_failure_leaves_file encodeFailEnv 2
    { State := .NOTIFICATION, ContentLocation := longLocation } ⟨.data, dbName "abc"⟩
    longInd FS.empty rfl rfl rfl rfl rfl

/-- C8: when the record is written and the handle for the draft send request cannot be
obtained (the cache path cannot be prepared or the draft file cannot be created),
`CreateSendFile` returns an error and the file of the DRAFT record it has just written is
still in the store, holding what the flush has written: the whole record when the flush does
not fail. -/
theorem CreateSendFile_handle_failure_keeps_record (env : Env) (uuid : String) (fs : FS)
    (hensure : env.ensureFails ⟨.data, dbName uuid⟩ = false)
    (hcreate : env.createFails ⟨.data, dbName uuid⟩ = false)
    (hencode : env.encodeFails ⟨.data, dbName uuid⟩ = none)
    (hhandle : env.ensureFails ⟨.cache, sendName uuid⟩ = true ∨
      env.createFails ⟨.cache, sendName uuid⟩ = true) :
    (∃ err, (CreateSendFile env uuid fs).1 = .error err) ∧
    (CreateSendFile env uuid fs).2 ⟨.data, dbName uuid⟩
      = some (env.flushed ⟨.data, dbName uuid⟩ (env.encodeState { State := .DRAFT })) ∧
    (env.flushFails ⟨.data, dbName uuid⟩ = none →
      (CreateSendFile env uuid fs).2 ⟨.data, dbName uuid⟩
        = some (env.encodeState { State := .DRAFT })) := by
  have hcd : (⟨.data, dbName uuid⟩ : Path) ≠ ⟨.cache, sendName uuid⟩ := by simp
  have hmain : (∃ err, (CreateSendFile env uuid fs).1 = .error err) ∧
      (CreateSendFile env uuid fs).2 ⟨.data, dbName uuid⟩
        = some (env.flushed ⟨.data, dbName uuid⟩ (env.encodeState { State := .DRAFT })) := by
    unfold CreateSendFile
    rcases hhandle with h | h
    · simp [xdgEnsure, writeState_eq, hensure, hcreate, hencode, h]
    · by_cases he : env.ensureFails ⟨.cache, sendName uuid⟩ = true
      · simp [xdgEnsure, writeState_eq, hensure, hcreate, hencode, he]
      · simp [xdgEnsure, writeState_eq, osCreate, hensure, hcreate, hencode, he, h,
          FS.touch_other _ _ _ hcd]
  refine ⟨hmain.1, hmain.2, ?_⟩
  intro hflush
  rw [hmain.2]
  simp [Env.flushed, hflush]

/-- C8, at a concrete input: the cache home cannot be prepared. -/
theorem CreateSendFile_handle_failure_keeps_record_witness :
    (∃ err, (CreateSendFile cacheFailEnv "abc" FS.empty).1 = .error err) ∧
    (CreateSendFile cacheFailEnv "abc" FS.empty).2 ⟨.data, dbName "abc"⟩
      = some (cacheFailEnv.flushed ⟨.data, dbName "abc"⟩
          (cacheFailEnv.encodeState { State := .DRAFT })) ∧
    (cacheFailEnv.flushFails ⟨.data, dbName "abc"⟩ = none →
      (CreateSendFile cacheFailEnv "abc" FS.empty).2 ⟨.data, dbName "abc"⟩
        = some (cacheFailEnv.encodeState { State := .DRAFT })) :=
  CreateSendFile_handle_failure_keeps_record cacheFailEnv "abc" FS.empty rfl rfl rfl
    (Or.inl (by decide))

/-! ## The bus-call loop -/

/-- C4: a call on an interface other than the service's is not answered: the iteration
builds the UnknownInterface error and goes on to the next call without sending it, so the
world, the connection included, is as before. -/
theorem unknown_interface_gets_no_reply (cfg : Cfg) (msg : Message) (w : World)
    (h : msg.Interface ≠ cfg.MMS_SERVICE_DBUS_IFACE) :
    watchDBusMethodCallsStep cfg msg w = w := by
  simp [watchDBusMethodCallsStep, h]

/-- C4, at a concrete input: an `Introspect` call on the introspection interface. -/
theorem unknown_interface_gets_no_reply_witness :
    watchDBusMethodCallsStep sampleCfg foreignCall (sampleWorld FS.empty) = sampleWorld FS.empty :=
  unknown_interface_gets_no_reply sampleCfg foreignCall (sampleWorld FS.empty) (by decide)

theorem connSend_replies (cfg : Cfg) (m : BusMsg) (w : World) :
    (connSend cfg m w).2.replies = w.replies ++ (if m.isReply then [m] else []) ∧
    (connSend cfg m w).2.outMessage = w.outMessage := by
  by_cases h : m.isReply = true <;> simp [connSend, World.replies, List.filter_append, h]

theorem SetPreferredContext_replies (cfg : Cfg) (context : ObjectPath) (w : World) :
    (SetPreferredContext cfg context w).2.replies = w.replies ∧
    (SetPreferredContext cfg context w).2.outMessage = w.outMessage := by
  unfold SetPreferredContext
  generalize GetPreferredContext w = g
  obtain ⟨pc, err⟩ := g
  by_cases hg : err.isSome = true ∧ context = pc
  · simp [hg]
  · unfold storage.SetPreferredContext appendArgs
    by_cases hs : cfg.setContextFails w.service.identity = true
    · simp [hg, hs]
    · by_cases ha : cfg.appendFails
          [.str cfg.preferredContextProperty, .variant (.objPath context)] = true
      · simp [hg, hs, ha, World.replies]
      · simp [hg, hs, ha, connSend, World.replies, List.filter_append, BusMsg.isReply]

theorem setProperty_replies (cfg : Cfg) (msg : Message) (w : World) :
    (setProperty cfg msg w).2.replies = w.replies ∧
    (setProperty cfg msg w).2.outMessage = w.outMessage := by
  unfold setProperty
  cases hargs : argsSetProperty msg with
  | error err => simp
  | ok pv =>
    obtain ⟨name, value⟩ := pv
    by_cases hn : name = cfg.preferredContextProperty
    · simp only [hn, if_true]
      have := SetPreferredContext_replies cfg value.reflectString
        { w with service := { w.service with
          Properties := w.service.Properties.set cfg.preferredContextProperty
            (.objPath value.reflectString) } }
      simpa [World.replies] using this
    · simp [hn]

/-- The reply of a method return after `AppendArgs`, or the error taking its place, is
a reply. -/
theorem appendArgs_reply (cfg : Cfg) (msg : Message) (args : List Arg) (text : String) :
    (match appendArgs cfg (BusMsg.methodReturn msg []) args with
      | (some _, _) => BusMsg.error msg "Error.InvalidArguments" text
      | (none, reply1) => reply1).isReply = true := by
  by_cases ha : cfg.appendFails args = true <;> simp [appendArgs, ha, BusMsg.isReply]

/-- Every call on the service's interface is answered once, except a `SendMessage` call
whose arguments parse, which is not answered and is forwarded once to the outbound
channel. -/
theorem known_interface_one_reply (cfg : Cfg) (msg : Message) (w : World)
    (h : msg.Interface = cfg.MMS_SERVICE_DBUS_IFACE) :
    (∀ recipients attachments, msg.Member = "SendMessage" →
      argsSendMessage msg = .ok (recipients, attachments) →
      (watchDBusMethodCallsStep cfg msg w).sent = w.sent ∧
      (watchDBusMethodCallsStep cfg msg w).outMessage = w.outMessage ++
        [{ Recipients := recipients, Attachments := attachments,
           Reply := BusMsg.methodReturn msg [] }]) ∧
    (¬ (msg.Member = "SendMessage" ∧ ∃ ra, argsSendMessage msg = .ok ra) →
      (watchDBusMethodCallsStep cfg msg w).replies.length = w.replies.length + 1 ∧
      (watchDBusMethodCallsStep cfg msg w).outMessage = w.outMessage) := by
  unfold watchDBusMethodCallsStep
  rw [if_neg (not_not.mpr h)]
  refine ⟨?_, ?_⟩
  · intro recipients attachments hm hargs
    have hm1 : msg.Member ≠ "GetMessages" := by rw [hm]; decide
    have hm2 : msg.Member ≠ "GetProperties" := by rw [hm]; decide
    have hm3 : msg.Member ≠ "SetProperty" := by rw [hm]; decide
    rw [if_neg hm1, if_neg hm2, if_neg hm3, if_pos hm]
    simp [hargs]
  · intro hnot
    by_cases hm1 : msg.Member = "GetMessages"
    · rw [if_pos hm1]
      have hr := appendArgs_reply cfg msg [Arg.payloads []] "Cannot parse services"
      simp only [(connSend_replies cfg _ _).1, (connSend_replies cfg _ _).2, hr, if_true,
        List.length_append, List.length_singleton, and_self]
    rw [if_neg hm1]
    by_cases hm2 : msg.Member = "GetProperties"
    · rw [if_pos hm2]
      rcases hg : GetPreferredContext w with ⟨pc, _ | err⟩
      · have hr := appendArgs_reply cfg msg
          [Arg.props (w.service.Properties.set cfg.preferredContextProperty (.objPath pc))]
          "Cannot parse services"
        simp [(connSend_replies cfg _ _).1, (connSend_replies cfg _ _).2, hr]
        rfl
      · have hr := appendArgs_reply cfg msg
          [Arg.props (w.service.Properties.set cfg.preferredContextProperty (.objPath "/"))]
          "Cannot parse services"
        simp [(connSend_replies cfg _ _).1, (connSend_replies cfg _ _).2, hr]
        rfl
    rw [if_neg hm2]
    by_cases hm3 : msg.Member = "SetProperty"
    · rw [if_pos hm3]
      have hsp := setProperty_replies cfg msg w
      rcases hr : setProperty cfg msg w with ⟨_ | err, w1⟩ <;>
      rw [hr] at hsp <;>
      simp only [] at hsp <;>
      simp [(connSend_replies cfg _ _).1, (connSend_replies cfg _ _).2, BusMsg.isReply,
        hsp.1, hsp.2]
    rw [if_neg hm3]
    by_cases hm4 : msg.Member = "SendMessage"
    · rw [if_pos hm4]
      cases hargs : argsSendMessage msg with
      | error err =>
        simp [(connSend_replies cfg _ _).1, (connSend_replies cfg _ _).2, BusMsg.isReply]
      | ok ra => exact absurd ⟨hm4, ra, hargs⟩ hnot
    · rw [if_neg hm4]
      simp [(connSend_replies cfg _ _).1, (connSend_replies cfg _ _).2, BusMsg.isReply]

/-- C9: a `SetProperty` call whose property name is not the preferred-context property
makes `setProperty` return the error `unhandled property` and leave the world as it was,
and makes the bus-call loop hand exactly one message to the connection, the
InvalidArguments error with that text; the service's properties and the persisted
preferred contexts are unchanged and no signal is sent. -/
theorem setProperty_unrecognized (cfg : Cfg) (msg : Message) (w : World) (name : String)
    (value : Variant)
    (hargs : argsSetProperty msg = .ok (name, value))
    (hname : name ≠ cfg.preferredContextProperty)
    (hiface : msg.Interface = cfg.MMS_SERVICE_DBUS_IFACE)
    (hmember : msg.Member = "SetProperty") :
    setProperty cfg msg w = (some (.text "unhandled property"), w) ∧
    watchDBusMethodCallsStep cfg msg w =
      { w with sent := w.sent ++
          [BusMsg.error msg "Error.InvalidArguments" "unhandled property"] } := by
  have h1 : setProperty cfg msg w = (some (.text "unhandled property"), w) := by
    simp [setProperty, hargs, hname]
  refine ⟨h1, ?_⟩
  have hm1 : msg.Member ≠ "GetMessages" := by rw [hmember]; decide
  have hm2 : msg.Member ≠ "GetProperties" := by rw [hmember]; decide
  unfold watchDBusMethodCallsStep
  rw [if_neg (not_not.mpr hiface), if_neg hm1, if_neg hm2, if_pos hmember, h1]
  simp [connSend, Err.Error]

/-- C9, at a concrete input: setting `UseDeliveryReports`. -/
theorem setProperty_unrecognized_witness :
    setProperty sampleCfg setUnknownCall contextWorld
      = (some (.text "unhandled property"), contextWorld) ∧
    watchDBusMethodCallsStep sampleCfg setUnknownCall contextWorld =
      { contextWorld with sent := contextWorld.sent ++
          [BusMsg.error setUnknownCall "Error.InvalidArguments" "unhandled property"] } :=
  setProperty_unrecognized sampleCfg setUnknownCall contextWorld "UseDeliveryReports"
    (.bool true) rfl (by decide) rfl rfl

/-- C10: setting the preferred context that is already stored is not a no-op: the
early return is taken only when the stored context cannot be read, so the context is
written to storage again and a PropertyChanged signal is handed to the connection. -/
theorem SetPreferredContext_same_not_noop (cfg : Cfg) (context : ObjectPath) (w : World)
    (hstored : w.contexts w.service.identity = some context)
    (hset : cfg.setContextFails w.service.identity = false)
    (happend : cfg.appendFails
      [.str cfg.preferredContextProperty, .variant (.objPath context)] = false) :
    (SetPreferredContext cfg context w).2.sent = w.sent ++
      [BusMsg.signal w.service.payload.Path cfg.MMS_SERVICE_DBUS_IFACE cfg.propertyChangedSignal
        [.str cfg.preferredContextProperty, .variant (.objPath context)]] := by
  simp [SetPreferredContext, GetPreferredContext, storage.GetPreferredContext,
    storage.SetPreferredContext, appendArgs, connSend, hstored, hset, happend]

/-- C10, at a concrete input: `/ril_0/context1` is stored and set again. -/
theorem SetPreferredContext_same_not_noop_witness :
    (SetPreferredContext sampleCfg "/ril_0/context1" contextWorld).2.sent = contextWorld.sent ++
      [BusMsg.signal contextWorld.service.payload.Path sampleCfg.MMS_SERVICE_DBUS_IFACE
        sampleCfg.propertyChangedSignal
        [.str sampleCfg.preferredContextProperty, .variant (.objPath "/ril_0/context1")]] :=
  SetPreferredContext_same_not_noop sampleCfg "/ril_0/context1" contextWorld rfl rfl rfl


/-! ## Destroy -/

theorem FS.erase_none (fs : FS) (p q : Path) (h : fs q = none) : fs.erase p q = none := by
  by_cases hq : q = p <;> simp [FS.erase, hq, h]

/-- C2, as the code has it: when the store path can be prepared, `Destroy` always removes
the MessageRecord file (a missing one is first created by `Ensure`), then removes the
notification record if there is one (a retrieved body stays where it is), else the retrieved
body if there is one; it fails with NotFound exactly when there is neither a notification
record nor a retrieved body, and succeeds exactly when there is one of them. -/
theorem Destroy_outcome (env : Env) (uuid : String) (fs : FS)
    (hensure : env.ensureFails ⟨.data, dbName uuid⟩ = false) :
    (Destroy env uuid fs).2 ⟨.data, dbName uuid⟩ = none ∧
    ((Destroy env uuid fs).1 = some (.notFound (mmsName uuid)) ↔
      (fs.has ⟨.data, indName uuid⟩ = false ∧ fs.has ⟨.data, mmsName uuid⟩ = false)) ∧
    ((Destroy env uuid fs).1 = none ↔
      (fs.has ⟨.data, indName uuid⟩ = true ∨ fs.has ⟨.data, mmsName uuid⟩ = true)) ∧
    (fs.has ⟨.data, indName uuid⟩ = true →
      Destroy env uuid fs
        = (none, (fs.erase ⟨.data, dbName uuid⟩).erase ⟨.data, indName uuid⟩) ∧
      (Destroy env uuid fs).2 ⟨.data, mmsName uuid⟩ = fs ⟨.data, mmsName uuid⟩) ∧
    (fs.has ⟨.data, indName uuid⟩ = false → fs.has ⟨.data, mmsName uuid⟩ = true →
      Destroy env uuid fs
        = (none, (fs.erase ⟨.data, dbName uuid⟩).erase ⟨.data, mmsName uuid⟩)) ∧
    (fs.has ⟨.data, indName uuid⟩ = false → fs.has ⟨.data, mmsName uuid⟩ = false →
      Destroy env uuid fs = (some (.notFound (mmsName uuid)), fs.erase ⟨.data, dbName uuid⟩)) := by
  have hmi : (⟨.data, mmsName uuid⟩ : Path) ≠ ⟨.data, indName uuid⟩ := by
    simp [mmsName_ne_indName uuid]
  have hmd : (⟨.data, mmsName uuid⟩ : Path) ≠ ⟨.data, dbName uuid⟩ := by
    simp [Ne.symm (dbName_ne_mmsName uuid)]
  have hgone : ∀ g : FS, (g.erase ⟨.data, dbName uuid⟩) ⟨.data, dbName uuid⟩ = none :=
    fun g => FS.erase_same g _
  by_cases hi : fs.has ⟨.data, indName uuid⟩ = true
  · have hD : Destroy env uuid fs
        = (none, (fs.erase ⟨.data, dbName uuid⟩).erase ⟨.data, indName uuid⟩) := by
      rw [Destroy_eq]; simp [hensure, hi]
    rw [hD]
    refine ⟨FS.erase_none _ _ _ (hgone fs), by simp [hi], by simp [hi], fun _ => ⟨rfl, ?_⟩,
      fun h => by simp [hi] at h, fun h => by simp [hi] at h⟩
    simp only [FS.erase_other _ _ _ hmi, FS.erase_other _ _ _ hmd]
  · have hi0 : fs.has ⟨.data, indName uuid⟩ = false := by simpa using hi
    by_cases hm : fs.has ⟨.data, mmsName uuid⟩ = true
    · have hD : Destroy env uuid fs
          = (none, (fs.erase ⟨.data, dbName uuid⟩).erase ⟨.data, mmsName uuid⟩) := by
        rw [Destroy_eq]; simp [hensure, hi0, hm]
      rw [hD]
      exact ⟨FS.erase_none _ _ _ (hgone fs), by simp [hi0, hm], by simp [hm],
        fun h => by simp [hi0] at h, fun _ _ => rfl, fun _ h => by simp [hm] at h⟩
    · have hm0 : fs.has ⟨.data, mmsName uuid⟩ = false := by simpa using hm
      have hD : Destroy env uuid fs
          = (some (.notFound (mmsName uuid)), fs.erase ⟨.data, dbName uuid⟩) := by
        rw [Destroy_eq]; simp [hensure, hi0, hm0]
      rw [hD]
      exact ⟨hgone fs, by simp [hi0, hm0], by simp [hi0, hm0],
        fun h => by simp [hi0] at h, fun _ h => by simp [hm0] at h, fun _ _ => rfl⟩

/-- C2, at a concrete input: a store with a notification record and no MessageRecord. -/
theorem Destroy_outcome_witness :
    (Destroy sampleEnv "abc" artifactOnlyFS).2 ⟨.data, dbName "abc"⟩ = none ∧
    ((Destroy sampleEnv "abc" artifactOnlyFS).1 = some (.notFound (mmsName "abc")) ↔
      (artifactOnlyFS.has ⟨.data, indName "abc"⟩ = false ∧
        artifactOnlyFS.has ⟨.data, mmsName "abc"⟩ = false)) ∧
    ((Destroy sampleEnv "abc" artifactOnlyFS).1 = none ↔
      (artifactOnlyFS.has ⟨.data, indName "abc"⟩ = true ∨
        artifactOnlyFS.has ⟨.data, mmsName "abc"⟩ = true)) ∧
    (artifactOnlyFS.has ⟨.data, indName "abc"⟩ = true →
      Destroy sampleEnv "abc" artifactOnlyFS
        = (none, (artifactOnlyFS.erase ⟨.data, dbName "abc"⟩).erase ⟨.data, indName "abc"⟩) ∧
      (Destroy sampleEnv "abc" artifactOnlyFS).2 ⟨.data, mmsName "abc"⟩
        = artifactOnlyFS ⟨.data, mmsName "abc"⟩) ∧
    (artifactOnlyFS.has ⟨.data, indName "abc"⟩ = false →
      artifactOnlyFS.has ⟨.data, mmsName "abc"⟩ = true →
      Destroy sampleEnv "abc" artifactOnlyFS
        = (none, (artifactOnlyFS.erase ⟨.data, dbName "abc"⟩).erase ⟨.data, mmsName "abc"⟩)) ∧
    (artifactOnlyFS.has ⟨.data, indName "abc"⟩ = false →
      artifactOnlyFS.has ⟨.data, mmsName "abc"⟩ = false →
      Destroy sampleEnv "abc" artifactOnlyFS
        = (some (.notFound (mmsName "abc")), artifactOnlyFS.erase ⟨.data, dbName "abc"⟩)) :=
  Destroy_outcome sampleEnv "abc" artifactOnlyFS rfl

/-- C2 fails as stated: right after `Create` the uuid has a record and no artifact, and
`Destroy` fails with NotFound; with the record and both artifacts present `Destroy`
succeeds and the retrieved body is still there. -/
theorem Destroy_claim_counterexample :
    ((Create sampleEnv "abc" "http://x/y" FS.empty).1 = none ∧
      recordOnlyFS.has ⟨.data, dbName "abc"⟩ = true ∧
      (Destroy sampleEnv "abc" recordOnlyFS).1 = some (.notFound (mmsName "abc"))) ∧
    ((Destroy sampleEnv "abc" bothArtifactsFS).1 = none ∧
      (Destroy sampleEnv "abc" bothArtifactsFS).2 ⟨.data, mmsName "abc"⟩ = some "body") := by
  refine ⟨⟨?_, ?_, ?_⟩, ⟨?_, ?_⟩⟩ <;> decide

/-- The operation `Destroy` creates no file. -/
theorem Destroy_none (env : Env) (uuid : String) (fs : FS) (p : Path) (h : fs p = none) :
    (Destroy env uuid fs).2 p = none := by
  rw [Destroy_eq]
  simp only []
  split_ifs
  · exact h
  · exact FS.erase_none _ _ _ (FS.erase_none _ _ _ h)
  · exact FS.erase_none _ _ _ (FS.erase_none _ _ _ h)
  · exact FS.erase_none _ _ _ h

/-- Once the store path is prepared, `Destroy` leaves no MessageRecord file. -/
theorem Destroy_removes_record (env : Env) (uuid : String) (fs : FS)
    (hensure : env.ensureFails ⟨.data, dbName uuid⟩ = false) :
    (Destroy env uuid fs).2 ⟨.data, dbName uuid⟩ = none := by
  have hgone : (fs.erase ⟨.data, dbName uuid⟩) ⟨.data, dbName uuid⟩ = none :=
    FS.erase_same fs _
  rw [Destroy_eq]
  simp only [hensure, Bool.false_eq_true, if_false]
  split_ifs
  · exact FS.erase_none _ _ _ hgone
  · exact FS.erase_none _ _ _ hgone
  · exact hgone

/-- The operation `Create` changes no file other than the MessageRecord. -/
theorem Create_frame (env : Env) (uuid contentLocation : String) (fs : FS) (p : Path)
    (hp : p ≠ ⟨.data, dbName uuid⟩) :
    (Create env uuid contentLocation fs).2 p = fs p := by
  unfold Create xdgEnsure
  by_cases hen : env.ensureFails ⟨.data, dbName uuid⟩ = true
  · simp [hen]
  · by_cases hc : env.createFails ⟨.data, dbName uuid⟩ = true
    · simp [hen, writeState_eq, hc, FS.touch_other _ _ _ hp]
    · cases he : env.encodeFails ⟨.data, dbName uuid⟩ <;>
        simp [hen, writeState_eq, hc, he, FS.touch_write, FS.write_other _ _ _ _ hp]

theorem Create_of_ensureFails (env : Env) (uuid contentLocation : String) (fs : FS)
    (hen : env.ensureFails ⟨.data, dbName uuid⟩ = true) :
    (Create env uuid contentLocation fs).2 = fs := by
  simp [Create, xdgEnsure, hen]

theorem GetMMS_of_none (uuid : String) (fs : FS) (h : fs ⟨.data, mmsName uuid⟩ = none) :
    GetMMS uuid fs = .error (.notFound (mmsName uuid)) := by
  simp [GetMMS, xdgFind, FS.has, h]

theorem GetMNotificationInd_of_none (uuid : String) (fs : FS)
    (h : fs ⟨.data, indName uuid⟩ = none) :
    GetMNotificationInd uuid fs = .error (.notFound (indName uuid)) := by
  simp [GetMNotificationInd, xdgFind, FS.has, h]

theorem GetMMS_of_some (uuid : String) (fs : FS) (c : String)
    (h : fs ⟨.data, mmsName uuid⟩ = some c) :
    GetMMS uuid fs = .ok ⟨.data, mmsName uuid⟩ := by
  simp [GetMMS, xdgFind, FS.has, h]

theorem GetMNotificationInd_of_some (uuid : String) (fs : FS) (c : String)
    (h : fs ⟨.data, indName uuid⟩ = some c) :
    GetMNotificationInd uuid fs = .ok ⟨.data, indName uuid⟩ := by
  simp [GetMNotificationInd, xdgFind, FS.has, h]

/-- C7: starting from a store with no file for the uuid, after `Create` followed by
`Destroy` the uuid has no MessageRecord file, no notification record, no retrieved body
and no cache artifact, and `GetMMS` and `GetMNotificationInd` both fail with NotFound;
this holds whatever the environment lets fail. -/
theorem Create_then_Destroy_leaves_nothing (env : Env) (uuid contentLocation : String)
    (fs fs' : FS)
    (hdb : fs ⟨.data, dbName uuid⟩ = none)
    (hind : fs ⟨.data, indName uuid⟩ = none)
    (hmms : fs ⟨.data, mmsName uuid⟩ = none)
    (hsend : fs ⟨.cache, sendName uuid⟩ = none)
    (hresp : fs ⟨.cache, respName uuid⟩ = none)
    (hrun : (Destroy env uuid (Create env uuid contentLocation fs).2).2 = fs') :
    fs' ⟨.data, dbName uuid⟩ = none ∧
    fs' ⟨.data, indName uuid⟩ = none ∧
    fs' ⟨.data, mmsName uuid⟩ = none ∧
    fs' ⟨.cache, sendName uuid⟩ = none ∧
    fs' ⟨.cache, respName uuid⟩ = none ∧
    GetMMS uuid fs' = .error (.notFound (mmsName uuid)) ∧
    GetMNotificationInd uuid fs' = .error (.notFound (indName uuid)) := by
  have hid : (⟨.data, indName uuid⟩ : Path) ≠ ⟨.data, dbName uuid⟩ := by
    simp [Ne.symm (dbName_ne_indName uuid)]
  have hmd : (⟨.data, mmsName uuid⟩ : Path) ≠ ⟨.data, dbName uuid⟩ := by
    simp [Ne.symm (dbName_ne_mmsName uuid)]
  have hsd : (⟨.cache, sendName uuid⟩ : Path) ≠ ⟨.data, dbName uuid⟩ := by simp
  have hrd : (⟨.cache, respName uuid⟩ : Path) ≠ ⟨.data, dbName uuid⟩ := by simp
  have hother : ∀ p : Path, p ≠ ⟨.data, dbName uuid⟩ → fs p = none → fs' p = none := by
    intro p hp h0
    rw [← hrun]
    apply Destroy_none
    rw [Create_frame env uuid contentLocation fs p hp, h0]
  have hrec : fs' ⟨.data, dbName uuid⟩ = none := by
    rw [← hrun]
    by_cases hen : env.ensureFails ⟨.data, dbName uuid⟩ = true
    · rw [Create_of_ensureFails env uuid contentLocation fs hen]
      exact Destroy_none _ _ _ _ hdb
    · exact Destroy_removes_record env uuid _ (by simpa using hen)
  have hi' := hother _ hid hind
  have hm' := hother _ hmd hmms
  exact ⟨hrec, hi', hm', hother _ hsd hsend, hother _ hrd hresp,
    GetMMS_of_none _ _ hm', GetMNotificationInd_of_none _ _ hi'⟩

/-- C7, at a concrete input: the uuid `abc` in the empty store. -/
theorem Create_then_Destroy_leaves_nothing_witness :
    (Destroy sampleEnv "abc" (Create sampleEnv "abc" "http://x/y" FS.empty).2).2
        ⟨.data, dbName "abc"⟩ = none ∧
    (Destroy sampleEnv "abc" (Create sampleEnv "abc" "http://x/y" FS.empty).2).2
        ⟨.data, indName "abc"⟩ = none ∧
    (Destroy sampleEnv "abc" (Create sampleEnv "abc" "http://x/y" FS.empty).2).2
        ⟨.data, mmsName "abc"⟩ = none ∧
    (Destroy sampleEnv "abc" (Create sampleEnv "abc" "http://x/y" FS.empty).2).2
        ⟨.cache, sendName "abc"⟩ = none ∧
    (Destroy sampleEnv "abc" (Create sampleEnv "abc" "http://x/y" FS.empty).2).2
        ⟨.cache, respName "abc"⟩ = none ∧
    GetMMS "abc" (Destroy sampleEnv "abc" (Create sampleEnv "abc" "http://x/y" FS.empty).2).2
      = .error (.notFound (mmsName "abc")) ∧
    GetMNotificationInd "abc"
        (Destroy sampleEnv "abc" (Create sampleEnv "abc" "http://x/y" FS.empty).2).2
      = .error (.notFound (indName "abc")) :=
  Create_then_Destroy_leaves_nothing sampleEnv "abc" "http://x/y" FS.empty _ rfl rfl rfl rfl rfl
    rfl


/-! ## UpdateFailed and UpdateDownloaded -/

theorem FS.touch_of_some (fs : FS) (p q : Path) (c : String) (h : fs q = some c) :
    fs.touch p q = some c := by
  by_cases hq : q = p
  · have hhas : fs.has p = true := by rw [← hq]; simp [FS.has, h]
    simp [FS.touch, hhas, h]
  · rw [FS.touch_other fs p q hq, h]

/-- What a successful `UpdateFailed` leaves in the store: no retrieved body, and in the
file of the notification record the bytes that the flush has written. -/
theorem UpdateFailed_ok (env : Env) (r : MNotificationInd) (fs fs' : FS)
    (hrun : UpdateFailed env r fs = (none, fs')) :
    fs' ⟨.data, mmsName r.UUID⟩ = none ∧
    fs' ⟨.data, indName r.UUID⟩
      = some (env.flushed ⟨.data, indName r.UUID⟩ (env.encodeInd r)) := by
  have hmi : (⟨.data, mmsName r.UUID⟩ : Path) ≠ ⟨.data, indName r.UUID⟩ := by
    simp [mmsName_ne_indName r.UUID]
  rw [UpdateFailed_eq] at hrun
  by_cases hen : env.ensureFails ⟨.data, indName r.UUID⟩ = true
  · simp [hen] at hrun
  by_cases hc : env.createFails ⟨.data, indName r.UUID⟩ = true
  · simp [hen, hc] at hrun
  cases he : env.encodeFails ⟨.data, indName r.UUID⟩ with
  | some n => simp [hen, hc, he] at hrun
  | none =>
    simp only [hen, hc, he, if_false, Bool.false_eq_true] at hrun
    have hfs := (Prod.mk.inj hrun).2
    refine ⟨?_, by rw [← hfs]; simp⟩
    rw [← hfs, FS.write_other _ _ _ _ hmi]
    by_cases hm : fs.has ⟨.data, mmsName r.UUID⟩ = true
    · simp [hm]
    · simpa [hm] using (FS.has_eq_false _ _).1 (by simpa using hm)

/-- When the deferred flush writes all bytes, the store after a successful `UpdateFailed`
is as follows: `GetMMS` fails with NotFound, `GetMNotificationInd` succeeds, the file holds
the encoding of the record, and reading it as the deletion loop does yields the record, for
a JSON layout that decodes the encoding of the record to the record. -/
theorem UpdateFailed_then_getters (env : Env) (r : MNotificationInd) (fs fs' : FS)
    (hrun : UpdateFailed env r fs = (none, fs'))
    (hflush : env.flushFails ⟨.data, indName r.UUID⟩ = none)
    (hcodec : env.decodeInd (env.encodeInd r) = some r) :
    GetMMS r.UUID fs' = .error (.notFound (mmsName r.UUID)) ∧
    GetMNotificationInd r.UUID fs' = .ok ⟨.data, indName r.UUID⟩ ∧
    fs' ⟨.data, indName r.UUID⟩ = some (env.encodeInd r) ∧
    (∀ path : ObjectPath, getUUIDFromObjectPath path = .ok r.UUID →
      readNotification env path fs' = some r) := by
  obtain ⟨hmms, hind⟩ := UpdateFailed_ok env r fs fs' hrun
  simp only [Env.flushed, hflush] at hind
  refine ⟨GetMMS_of_none _ _ hmms, GetMNotificationInd_of_some _ _ _ hind, hind, ?_⟩
  intro path hpath
  simp [readNotification, hpath, GetMNotificationInd_of_some _ _ _ hind, hind, hcodec]

/-- C6: when the notification record is created and encoded and the deferred flush then
fails, `UpdateFailed` still returns without error: `GetMMS` fails with NotFound and
`GetMNotificationInd` succeeds, but the file it names holds only the bytes written before
the failure, and reading it as the deletion loop does yields whatever those bytes decode
to. -/
theorem UpdateFailed_flush_failure (env : Env) (r : MNotificationInd) (fs : FS) (m : Nat)
    (hensure : env.ensureFails ⟨.data, indName r.UUID⟩ = false)
    (hcreate : env.createFails ⟨.data, indName r.UUID⟩ = false)
    (hencode : env.encodeFails ⟨.data, indName r.UUID⟩ = none)
    (hflush : env.flushFails ⟨.data, indName r.UUID⟩ = some m) :
    (UpdateFailed env r fs).1 = none ∧
    GetMMS r.UUID (UpdateFailed env r fs).2 = .error (.notFound (mmsName r.UUID)) ∧
    GetMNotificationInd r.UUID (UpdateFailed env r fs).2 = .ok ⟨.data, indName r.UUID⟩ ∧
    (UpdateFailed env r fs).2 ⟨.data, indName r.UUID⟩ = some ((env.encodeInd r).take m) ∧
    (∀ path : ObjectPath, getUUIDFromObjectPath path = .ok r.UUID →
      readNotification env path (UpdateFailed env r fs).2
        = env.decodeInd ((env.encodeInd r).take m)) := by
  have hnil : (UpdateFailed env r fs).1 = none := by
    rw [UpdateFailed_eq]
    simp [hensure, hcreate, hencode]
  obtain ⟨hmms, hind⟩ := UpdateFailed_ok env r fs (UpdateFailed env r fs).2
    (by rw [← hnil])
  simp only [Env.flushed, hflush] at hind
  refine ⟨hnil, GetMMS_of_none _ _ hmms, GetMNotificationInd_of_some _ _ _ hind, hind, ?_⟩
  intro path hpath
  simp [readNotification, hpath, GetMNotificationInd_of_some _ _ _ hind, hind]

/-- C6, at a concrete input: the record for `abc` when the flush fails before any byte is
written. -/
theorem UpdateFailed_flush_failure_witness :
    (UpdateFailed flushFailEnv sampleInd bothArtifactsFS).1 = none ∧
    GetMMS sampleInd.UUID (UpdateFailed flushFailEnv sampleInd bothArtifactsFS).2
      = .error (.notFound (mmsName sampleInd.UUID)) ∧
    GetMNotificationInd sampleInd.UUID (UpdateFailed flushFailEnv sampleInd bothArtifactsFS).2
      = .ok ⟨.data, indName sampleInd.UUID⟩ ∧
    (UpdateFailed flushFailEnv sampleInd bothArtifactsFS).2 ⟨.data, indName sampleInd.UUID⟩
      = some ((flushFailEnv.encodeInd sampleInd).take 0) ∧
    (∀ path : ObjectPath, getUUIDFromObjectPath path = .ok sampleInd.UUID →
      readNotification flushFailEnv path (UpdateFailed flushFailEnv sampleInd bothArtifactsFS).2
        = flushFailEnv.decodeInd ((flushFailEnv.encodeInd sampleInd).take 0)) :=
  UpdateFailed_flush_failure flushFailEnv sampleInd bothArtifactsFS 0 rfl rfl rfl rfl

/-- In the sample layout an empty file decodes neither to a notification record nor to a
MessageRecord. -/
theorem sample_decode_empty :
    flushFailEnv.decodeInd ((flushFailEnv.encodeInd sampleInd).take 0) = none ∧
    flushFailEnv.decodeState ((flushFailEnv.encodeState { State := .DOWNLOADED }).take 0)
      = none := by
  constructor <;> decide

/-- The result of `UpdateDownloaded` in every environment, `g` being the store after
`Ensure` has created the file of the retrieved body when it was missing. -/
theorem UpdateDownloaded_eq (env : Env) (uuid : String) (filePath : Path) (fs g : FS)
    (hg : g = fs.touch ⟨.data, mmsName uuid⟩) :
    UpdateDownloaded env uuid filePath fs =
      if env.ensureFails ⟨.data, mmsName uuid⟩ then (some (.ensure ⟨.data, mmsName uuid⟩), fs)
      else
        match g filePath with
        | none => (some (.notExist filePath), fs.erase ⟨.data, mmsName uuid⟩)
        | some body =>
          if ((g.erase filePath).write ⟨.data, mmsName uuid⟩ body).has ⟨.data, indName uuid⟩ then
            if ((g.erase filePath).write ⟨.data, mmsName uuid⟩ body).has ⟨.data, dbName uuid⟩ then
              writeState env { State := .DOWNLOADED } ⟨.data, dbName uuid⟩
                (((g.erase filePath).write ⟨.data, mmsName uuid⟩ body).erase
                  ⟨.data, indName uuid⟩)
            else
              (some (.notFound (dbName uuid)),
                ((g.erase filePath).write ⟨.data, mmsName uuid⟩ body).erase
                  ⟨.data, indName uuid⟩)
          else
            if ((g.erase filePath).write ⟨.data, mmsName uuid⟩ body).has ⟨.data, dbName uuid⟩ then
              writeState env { State := .DOWNLOADED } ⟨.data, dbName uuid⟩
                ((g.erase filePath).write ⟨.data, mmsName uuid⟩ body)
            else
              (some (.notFound (dbName uuid)),
                (g.erase filePath).write ⟨.data, mmsName uuid⟩ body) := by
  have hdi : (⟨.data, dbName uuid⟩ : Path) ≠ ⟨.data, indName uuid⟩ := by
    simp [dbName_ne_indName uuid]
  have hkeep : ∀ h : FS, (h.erase ⟨.data, indName uuid⟩).has ⟨.data, dbName uuid⟩
      = h.has ⟨.data, dbName uuid⟩ := by
    intro h
    simp [FS.has, FS.erase_other _ _ _ hdi]
  have hgm : g.has ⟨.data, mmsName uuid⟩ = true := by rw [hg]; exact FS.touch_has _ _
  have hge : g.erase ⟨.data, mmsName uuid⟩ = fs.erase ⟨.data, mmsName uuid⟩ := by
    rw [hg]; exact FS.touch_erase _ _
  unfold UpdateDownloaded GetMNotificationInd xdgFind xdgEnsure osRename
  by_cases hen : env.ensureFails ⟨.data, mmsName uuid⟩ = true
  · simp [hen]
  · rw [← hg]
    rcases Option.eq_none_or_eq_some (g filePath) with hf | ⟨body, hf⟩
    · simp [hen, hf, osRemove, hgm, hge]
    · by_cases hi : ((g.erase filePath).write ⟨.data, mmsName uuid⟩ body).has
          ⟨.data, indName uuid⟩ = true <;>
      by_cases hd : ((g.erase filePath).write ⟨.data, mmsName uuid⟩ body).has
          ⟨.data, dbName uuid⟩ = true <;>
      simp [hen, hf, hi, hd, osRemove, hkeep]

/-- What a successful `UpdateDownloaded` of an existing temporary file leaves in the store:
no notification record, the body under the uuid, and in the file of the MessageRecord the
bytes that the flush has written. -/
theorem UpdateDownloaded_ok (env : Env) (uuid : String) (filePath : Path) (fs fs' : FS)
    (body : String) (hbody : fs filePath = some body)
    (hrun : UpdateDownloaded env uuid filePath fs = (none, fs')) :
    fs' ⟨.data, indName uuid⟩ = none ∧
    fs' ⟨.data, mmsName uuid⟩ = some body ∧
    fs' ⟨.data, dbName uuid⟩
      = some (env.flushed ⟨.data, dbName uuid⟩ (env.encodeState { State := .DOWNLOADED })) := by
  have hid : (⟨.data, indName uuid⟩ : Path) ≠ ⟨.data, dbName uuid⟩ := by
    simp [Ne.symm (dbName_ne_indName uuid)]
  have hmd : (⟨.data, mmsName uuid⟩ : Path) ≠ ⟨.data, dbName uuid⟩ := by
    simp [Ne.symm (dbName_ne_mmsName uuid)]
  have hmi : (⟨.data, mmsName uuid⟩ : Path) ≠ ⟨.data, indName uuid⟩ := by
    simp [mmsName_ne_indName uuid]
  have hwrite : ∀ g : FS, writeState env { State := .DOWNLOADED } ⟨.data, dbName uuid⟩ g
      = (none, fs') → fs' = g.write ⟨.data, dbName uuid⟩
        (env.flushed ⟨.data, dbName uuid⟩ (env.encodeState { State := .DOWNLOADED })) := by
    intro g hg
    rw [writeState_eq] at hg
    by_cases hc : env.createFails ⟨.data, dbName uuid⟩ = true
    · simp [hc] at hg
    · cases he : env.encodeFails ⟨.data, dbName uuid⟩ with
      | some n => simp [hc, he] at hg
      | none =>
        simp only [hc, he, if_false, Bool.false_eq_true] at hg
        exact ((Prod.mk.inj hg).2).symm
  have hfinish : ∀ g : FS, g ⟨.data, indName uuid⟩ = none →
      g ⟨.data, mmsName uuid⟩ = some body →
      fs' = g.write ⟨.data, dbName uuid⟩
        (env.flushed ⟨.data, dbName uuid⟩ (env.encodeState { State := .DOWNLOADED })) →
      fs' ⟨.data, indName uuid⟩ = none ∧
      fs' ⟨.data, mmsName uuid⟩ = some body ∧
      fs' ⟨.data, dbName uuid⟩
        = some (env.flushed ⟨.data, dbName uuid⟩
            (env.encodeState { State := .DOWNLOADED })) := by
    intro g hgi hgm hfs
    refine ⟨?_, ?_, ?_⟩
    · rw [hfs, FS.write_other _ _ _ _ hid, hgi]
    · rw [hfs, FS.write_other _ _ _ _ hmd, hgm]
    · rw [hfs]; exact FS.write_same _ _ _
  have hf : (fs.touch ⟨.data, mmsName uuid⟩) filePath = some body :=
    FS.touch_of_some fs _ filePath body hbody
  rw [UpdateDownloaded_eq env uuid filePath fs _ rfl] at hrun
  by_cases hen : env.ensureFails ⟨.data, mmsName uuid⟩ = true
  · simp [hen] at hrun
  simp only [hen, hf, if_false, Bool.false_eq_true] at hrun
  by_cases hd : (((fs.touch ⟨.data, mmsName uuid⟩).erase filePath).write
      ⟨.data, mmsName uuid⟩ body).has ⟨.data, dbName uuid⟩ = true
  · by_cases hi : (((fs.touch ⟨.data, mmsName uuid⟩).erase filePath).write
        ⟨.data, mmsName uuid⟩ body).has ⟨.data, indName uuid⟩ = true
    · simp only [hi, hd, if_true] at hrun
      refine hfinish _ (FS.erase_same _ _) ?_ (hwrite _ hrun)
      rw [FS.erase_other _ _ _ hmi]; exact FS.write_same _ _ _
    · simp only [hi, hd, if_true, if_false] at hrun
      refine hfinish _ ((FS.has_eq_false _ _).1 (by simpa using hi)) ?_ (hwrite _ hrun)
      exact FS.write_same _ _ _
  · by_cases hi : (((fs.touch ⟨.data, mmsName uuid⟩).erase filePath).write
        ⟨.data, mmsName uuid⟩ body).has ⟨.data, indName uuid⟩ = true <;>
      simp [hi, hd] at hrun

/-- When the deferred flush writes all bytes, the store after a successful
`UpdateDownloaded` of an existing temporary file is as follows: `GetMNotificationInd` fails
with NotFound, `GetMMS` succeeds with the path of the retrieved body, whose content is the
one the temporary file had, the two artifacts are not both present, and the MessageRecord
decodes to the state DOWNLOADED, for a JSON layout that reads its own encoding back. -/
theorem UpdateDownloaded_then_getters (env : Env) (uuid : String) (filePath : Path)
    (fs fs' : FS) (body : String)
    (hbody : fs filePath = some body)
    (hrun : UpdateDownloaded env uuid filePath fs = (none, fs'))
    (hflush : env.flushFails ⟨.data, dbName uuid⟩ = none)
    (hcodec : env.decodeState (env.encodeState { State := .DOWNLOADED })
      = some { State := .DOWNLOADED }) :
    GetMNotificationInd uuid fs' = .error (.notFound (indName uuid)) ∧
    GetMMS uuid fs' = .ok ⟨.data, mmsName uuid⟩ ∧
    fs' ⟨.data, mmsName uuid⟩ = some body ∧
    ¬ (fs'.has ⟨.data, indName uuid⟩ = true ∧ fs'.has ⟨.data, mmsName uuid⟩ = true) ∧
    (∃ content, fs' ⟨.data, dbName uuid⟩ = some content ∧
      env.decodeState content = some { State := .DOWNLOADED }) := by
  obtain ⟨hi, hm, hd⟩ := UpdateDownloaded_ok env uuid filePath fs fs' body hbody hrun
  simp only [Env.flushed, hflush] at hd
  refine ⟨GetMNotificationInd_of_none _ _ hi, GetMMS_of_some _ _ _ hm, hm, ?_, ⟨_, hd, hcodec⟩⟩
  intro hboth
  have := (FS.has_eq_false _ _).2 hi
  rw [this] at hboth
  exact absurd hboth.1 (by decide)

/-- C5: when the temporary file is moved, the MessageRecord is created and encoded and the
deferred flush then fails, `UpdateDownloaded` still returns without error:
`GetMNotificationInd` fails with NotFound and `GetMMS` finds the body with the content of
the temporary file, but the file of the MessageRecord holds only the bytes written before
the failure, in place of the record it held before. -/
theorem UpdateDownloaded_flush_failure (env : Env) (uuid : String) (filePath : Path) (fs : FS)
    (body : String) (m : Nat)
    (hensure : env.ensureFails ⟨.data, mmsName uuid⟩ = false)
    (hbody : fs filePath = some body)
    (hrecord : fs.has ⟨.data, dbName uuid⟩ = true)
    (hfile : filePath ≠ ⟨.data, dbName uuid⟩)
    (hcreate : env.createFails ⟨.data, dbName uuid⟩ = false)
    (hencode : env.encodeFails ⟨.data, dbName uuid⟩ = none)
    (hflush : env.flushFails ⟨.data, dbName uuid⟩ = some m) :
    (UpdateDownloaded env uuid filePath fs).1 = none ∧
    GetMNotificationInd uuid (UpdateDownloaded env uuid filePath fs).2
      = .error (.notFound (indName uuid)) ∧
    GetMMS uuid (UpdateDownloaded env uuid filePath fs).2 = .ok ⟨.data, mmsName uuid⟩ ∧
    (UpdateDownloaded env uuid filePath fs).2 ⟨.data, mmsName uuid⟩ = some body ∧
    (UpdateDownloaded env uuid filePath fs).2 ⟨.data, dbName uuid⟩
      = some ((env.encodeState { State := .DOWNLOADED }).take m) := by
  have hdm : (⟨.data, dbName uuid⟩ : Path) ≠ ⟨.data, mmsName uuid⟩ := by
    simp [dbName_ne_mmsName uuid]
  have hf : (fs.touch ⟨.data, mmsName uuid⟩) filePath = some body :=
    FS.touch_of_some fs _ filePath body hbody
  have hd : (((fs.touch ⟨.data, mmsName uuid⟩).erase filePath).write
      ⟨.data, mmsName uuid⟩ body).has ⟨.data, dbName uuid⟩ = true := by
    simp only [FS.has, FS.write_other _ _ _ _ hdm, FS.erase_other _ _ _ (Ne.symm hfile),
      FS.touch_other _ _ _ hdm]
    exact hrecord
  have hnil : (UpdateDownloaded env uuid filePath fs).1 = none := by
    rw [UpdateDownloaded_eq env uuid filePath fs _ rfl]
    simp only [hensure, hf, hd, if_false, if_true, Bool.false_eq_true, writeState_eq, hcreate,
      hencode]
    split_ifs <;> rfl
  obtain ⟨hi, hm, hrec⟩ := UpdateDownloaded_ok env uuid filePath fs
    (UpdateDownloaded env uuid filePath fs).2 body hbody (by rw [← hnil])
  simp only [Env.flushed, hflush] at hrec
  exact ⟨hnil, GetMNotificationInd_of_none _ _ hi, GetMMS_of_some _ _ _ hm, hm, hrec⟩

/-- C5, at a concrete input: the body for `abc` downloaded to `/tmp/body`, when the flush
fails before any byte is written. -/
theorem UpdateDownloaded_flush_failure_witness :
    (UpdateDownloaded flushFailEnv "abc" ⟨.other, "/tmp/body"⟩ downloadFS).1 = none ∧
    GetMNotificationInd "abc"
        (UpdateDownloaded flushFailEnv "abc" ⟨.other, "/tmp/body"⟩ downloadFS).2
      = .error (.notFound (indName "abc")) ∧
    GetMMS "abc" (UpdateDownloaded flushFailEnv "abc" ⟨.other, "/tmp/body"⟩ downloadFS).2
      = .ok ⟨.data, mmsName "abc"⟩ ∧
    (UpdateDownloaded flushFailEnv "abc" ⟨.other, "/tmp/body"⟩ downloadFS).2
        ⟨.data, mmsName "abc"⟩ = some "body" ∧
    (UpdateDownloaded flushFailEnv "abc" ⟨.other, "/tmp/body"⟩ downloadFS).2
        ⟨.data, dbName "abc"⟩
      = some ((flushFailEnv.encodeState { State := .DOWNLOADED }).take 0) :=
  UpdateDownloaded_flush_failure flushFailEnv "abc" ⟨.other, "/tmp/body"⟩ downloadFS "body" 0
    rfl (by decide) (by decide) (by decide) rfl rfl rfl

/-! ## The deletion loop -/

/-- Removing a registered Message Object runs to its end and sends nothing on a retry
channel. -/
theorem MessageRemoved_registered (cfg : Cfg) (env : Env) (path : ObjectPath) (w : World)
    (handler : MessageInterface) (h : w.service.messageHandlers path = some handler) :
    ∃ e w1, MessageRemoved cfg env path w = some (e, w1) ∧ w1.retries = w.retries := by
  unfold MessageRemoved
  simp only [h]
  cases hu : getUUIDFromObjectPath path with
  | error err => exact ⟨_, _, rfl, rfl⟩
  | ok uuid =>
    rcases hD : Destroy env uuid w.fs with ⟨_ | err, fs1⟩
    · simp only [hD, appendArgs, connSend]
      by_cases ha : cfg.appendFails [Arg.objPath path] = true
      · simp only [ha, if_true]; exact ⟨_, _, rfl, rfl⟩
      · simp only [ha, if_false, Bool.false_eq_true]; exact ⟨_, _, rfl, rfl⟩
    · simp only [hD]; exact ⟨_, _, rfl, rfl⟩

theorem readNotification_of_record (env : Env) (path : ObjectPath) (fs : FS) (uuid content : String)
    (r : MNotificationInd) (hu : getUUIDFromObjectPath path = .ok uuid)
    (hf : fs ⟨.data, indName uuid⟩ = some content) (hd : env.decodeInd content = some r) :
    readNotification env path fs = some r := by
  simp [readNotification, hu, GetMNotificationInd_of_some _ _ _ hf, hf, hd]

theorem readNotification_of_no_record (env : Env) (path : ObjectPath) (fs : FS)
    (h : ∀ uuid, getUUIDFromObjectPath path = .ok uuid → fs ⟨.data, indName uuid⟩ = none) :
    readNotification env path fs = none := by
  unfold readNotification
  cases hu : getUUIDFromObjectPath path with
  | error err => rfl
  | ok uuid => simp [GetMNotificationInd_of_none _ _ (h uuid hu)]

/-- C3, as the code has it: one step of the deletion loop on the path of a registered
Message Object runs to its end.  If the object has a retry channel and the notification
record on disk for the path's uuid decodes to a record, exactly one notification is sent,
on that channel, equal to the record, and, when the store can write it, the MessageRecord
of the record's UUID then holds what the flush has written of the state NOTIFICATION with
the record's content location: all of it when the flush does not fail.
If the object has no retry channel, or no notification record exists for the path's uuid,
nothing is sent on any retry channel. -/
theorem deletion_step_retry (cfg : Cfg) (env : Env) (path : ObjectPath) (w : World)
    (handler : MessageInterface) (hreg : w.service.messageHandlers path = some handler) :
    ∃ w', watchMessageDeleteCallsStep cfg env path w = some w' ∧
      (∀ (ch : ChanId) (uuid content : String) (r : MNotificationInd),
        handler.mNotificationIndChan = some ch →
        getUUIDFromObjectPath path = .ok uuid →
        w.fs ⟨.data, indName uuid⟩ = some content →
        env.decodeInd content = some r →
        w'.retries = w.retries ++ [(ch, r)] ∧
        (env.ensureFails ⟨.data, dbName r.UUID⟩ = false →
          env.createFails ⟨.data, dbName r.UUID⟩ = false →
          env.encodeFails ⟨.data, dbName r.UUID⟩ = none →
          w'.fs ⟨.data, dbName r.UUID⟩ = some (env.flushed ⟨.data, dbName r.UUID⟩
            (env.encodeState
              { State := .NOTIFICATION, ContentLocation := r.ContentLocation })) ∧
          (env.flushFails ⟨.data, dbName r.UUID⟩ = none →
            w'.fs ⟨.data, dbName r.UUID⟩ = some (env.encodeState
              { State := .NOTIFICATION, ContentLocation := r.ContentLocation })))) ∧
      (handler.mNotificationIndChan = none → w'.retries = w.retries) ∧
      ((∀ uuid, getUUIDFromObjectPath path = .ok uuid → w.fs ⟨.data, indName uuid⟩ = none) →
        w'.retries = w.retries) := by
  obtain ⟨e, w1, hMR, hret⟩ := MessageRemoved_registered cfg env path w handler hreg
  unfold watchMessageDeleteCallsStep
  simp only [hreg, hMR]
  cases hn : readNotification env path w.fs with
  | none =>
    refine ⟨w1, rfl, ?_, fun _ => hret, fun _ => hret⟩
    intro ch uuid content r _ hu hf hd
    rw [readNotification_of_record env path w.fs uuid content r hu hf hd] at hn
    cases hn
  | some ind =>
    cases hc : handler.mNotificationIndChan with
    | none =>
      refine ⟨w1, rfl, ?_, fun _ => hret, fun _ => hret⟩
      intro ch uuid content r hch
      cases hch
    | some ch0 =>
      refine ⟨_, rfl, ?_, ?_, ?_⟩
      · intro ch uuid content r hch hu hf hd
        rw [readNotification_of_record env path w.fs uuid content r hu hf hd] at hn
        cases hn
        cases hch
        refine ⟨by simp [hret], ?_⟩
        intro h1 h2 h3
        refine ⟨by simp [Create, xdgEnsure, writeState_eq, h1, h2, h3], ?_⟩
        intro h4
        simp [Create, xdgEnsure, writeState_eq, h1, h2, h3, h4, Env.flushed]
      · intro hch
        cases hch
      · intro hno
        rw [readNotification_of_no_record env path w.fs hno] at hn
        cases hn

/-- C3, at a concrete input: the Message Object of `abc` registered by
`IncomingMessageFailAdded` with the retry channel 7. -/
theorem deletion_step_retry_witness :
    ∃ w', watchMessageDeleteCallsStep sampleCfg sampleEnv "/org/ofono/mms/ril_0/abc" failAddedWorld
        = some w' ∧
      (∀ (ch : ChanId) (uuid content : String) (r : MNotificationInd),
        (some 7 : Option ChanId) = some ch →
        getUUIDFromObjectPath "/org/ofono/mms/ril_0/abc" = .ok uuid →
        failAddedWorld.fs ⟨.data, indName uuid⟩ = some content →
        sampleEnv.decodeInd content = some r →
        w'.retries = failAddedWorld.retries ++ [(ch, r)] ∧
        (sampleEnv.ensureFails ⟨.data, dbName r.UUID⟩ = false →
          sampleEnv.createFails ⟨.data, dbName r.UUID⟩ = false →
          sampleEnv.encodeFails ⟨.data, dbName r.UUID⟩ = none →
          w'.fs ⟨.data, dbName r.UUID⟩ = some (sampleEnv.flushed ⟨.data, dbName r.UUID⟩
            (sampleEnv.encodeState
              { State := .NOTIFICATION, ContentLocation := r.ContentLocation })) ∧
          (sampleEnv.flushFails ⟨.data, dbName r.UUID⟩ = none →
            w'.fs ⟨.data, dbName r.UUID⟩ = some (sampleEnv.encodeState
              { State := .NOTIFICATION, ContentLocation := r.ContentLocation })))) ∧
      ((some 7 : Option ChanId) = none → w'.retries = failAddedWorld.retries) ∧
      ((∀ uuid, getUUIDFromObjectPath "/org/ofono/mms/ril_0/abc" = .ok uuid →
          failAddedWorld.fs ⟨.data, indName uuid⟩ = none) →
        w'.retries = failAddedWorld.retries) :=
  deletion_step_retry sampleCfg sampleEnv "/org/ofono/mms/ril_0/abc" failAddedWorld
    { objectPath := "/org/ofono/mms/ril_0/abc", mNotificationIndChan := some 7 } (by decide)

/-- C3 fails as stated: the Message Object of `abc` is registered by `IncomingMessageAdded`,
a decodable notification record for `abc` is on disk, and the step of the deletion loop
sends nothing on any retry channel and leaves no MessageRecord for `abc`; for the
object registered by `IncomingMessageFailAdded` the same step sends the record on its
channel and writes the MessageRecord. -/
theorem deletion_without_retry_channel :
    ((IncomingMessageAdded sampleCfg sampleRetrieveConf (sampleWorld notificationFS)).1 = none ∧
      (addedWorld.service.messageHandlers "/org/ofono/mms/ril_0/abc").isSome = true ∧
      readNotification sampleEnv "/org/ofono/mms/ril_0/abc" addedWorld.fs = some sampleInd ∧
      (watchMessageDeleteCallsStep sampleCfg sampleEnv "/org/ofono/mms/ril_0/abc" addedWorld).map
        (fun w' => w'.retries) = some [] ∧
      (watchMessageDeleteCallsStep sampleCfg sampleEnv "/org/ofono/mms/ril_0/abc" addedWorld).map
        (fun w' => w'.fs ⟨.data, dbName "abc"⟩) = some none) ∧
    ((watchMessageDeleteCallsStep sampleCfg sampleEnv "/org/ofono/mms/ril_0/abc" failAddedWorld).map
        (fun w' => w'.retries) = some [(7, sampleInd)] ∧
      (watchMessageDeleteCallsStep sampleCfg sampleEnv "/org/ofono/mms/ril_0/abc" failAddedWorld).map
        (fun w' => w'.fs ⟨.data, dbName "abc"⟩) = some (some "notification|http://x/y")) := by
  refine ⟨⟨?_, ?_, ?_, ?_, ?_⟩, ⟨?_, ?_⟩⟩ <;> decide


/-! ## Object paths and uuids -/

theorem splitChar_ne_nil (sep : Char) (l : List Char) : splitChar sep l ≠ [] := by
  cases l with
  | nil => simp [splitChar]
  | cons c cs =>
    by_cases hc : c = sep
    · simp [splitChar, hc]
    · cases h : splitChar sep cs <;> simp [splitChar, hc, h]

/-- Splitting distributes over a separator. -/
theorem splitChar_append_sep (sep : Char) (l r : List Char) :
    splitChar sep (l ++ sep :: r) = splitChar sep l ++ splitChar sep r := by
  induction l with
  | nil => simp [splitChar]
  | cons c cs ih =>
    by_cases hc : c = sep
    · simp [splitChar, hc, ih]
    · cases h : splitChar sep cs with
      | nil => exact absurd h (splitChar_ne_nil sep cs)
      | cons p ps => simp [splitChar, hc, ih, h]

theorem takeWhile_append_stop {α : Type} (p : α → Bool) (l r : List α) (x : α)
    (hl : ∀ a ∈ l, p a = true) (hx : p x = false) :
    (l ++ x :: r).takeWhile p = l := by
  induction l with
  | nil => simp [List.takeWhile, hx]
  | cons a as ih =>
    have ha : p a = true := hl a (by simp)
    simp [List.takeWhile, ha, ih (fun b hb => hl b (List.mem_cons_of_mem _ hb))]

/-- The base name of a path that ends in a slash and a non-empty element without slash
is that element. -/
theorem filepathBase_append (front uuid : String) (hne : uuid ≠ "") (hs : '/' ∉ uuid.data) :
    filepathBase (front ++ "/" ++ uuid) = uuid := by
  have hdata : uuid.data ≠ [] := by
    intro h; apply hne; cases uuid; simp_all
  have hp : front ++ "/" ++ uuid ≠ "" := by
    intro h
    have := congrArg String.data h
    simp at this
  obtain ⟨c, cs, hrev⟩ : ∃ c cs, uuid.data.reverse = c :: cs := by
    cases h : uuid.data.reverse with
    | nil => simp at h; exact absurd h hdata
    | cons c cs => exact ⟨c, cs, rfl⟩
  have hc : c ≠ '/' := by
    intro h; apply hs
    have : c ∈ uuid.data.reverse := by rw [hrev]; simp
    rw [h] at this; simpa using this
  have hall : ∀ x ∈ uuid.data.reverse, (x != '/') = true := by
    intro x hx
    have : x ∈ uuid.data := by simpa using hx
    simp only [bne_iff_ne, ne_eq]
    intro h; rw [h] at this; exact hs this
  unfold filepathBase
  rw [if_neg hp]
  have hslash : ("/" : String).data = ['/'] := rfl
  simp only [String.data_append, List.reverse_append, hslash, List.reverse_cons,
    List.reverse_nil, List.nil_append, List.singleton_append]
  have hdrop : (uuid.data.reverse ++ '/' :: front.data.reverse).dropWhile (fun c => c == '/')
      = uuid.data.reverse ++ '/' :: front.data.reverse := by
    rw [hrev]
    have hb : (c == '/') = false := by simpa using hc
    simp [List.dropWhile, hb]
  rw [hdrop, takeWhile_append_stop _ _ _ _ hall (by simp)]
  simp [hdata]

/-- Cleaning leaves a store path with a plain last element as it is. -/
theorem cleanChars_store (x : List Char) (hs : '/' ∉ x) (hx : 3 ≤ x.length) :
    cleanChars ("nuntium/store".data ++ '/' :: x) = "nuntium/store".data ++ '/' :: x := by
  have hsplit : splitSlash ("nuntium/store".data ++ '/' :: x)
      = ["nuntium".data, "store".data, x] := by
    have h1 : "nuntium/store".data ++ '/' :: x
        = "nuntium".data ++ '/' :: ("store".data ++ '/' :: x) := by simp
    rw [h1, splitSlash, splitChar_append_sep, splitChar_append_sep,
      splitChar_of_not_mem _ _ hs, splitChar_of_not_mem _ "nuntium".data (by decide),
      splitChar_of_not_mem _ "store".data (by decide)]
    rfl
  have helems : cleanElems false ("nuntium/store".data ++ '/' :: x)
      = ["nuntium".data, "store".data, x] := by
    rw [cleanElems, hsplit]
    simp only [List.foldl_cons, List.foldl_nil]
    rw [cleanStep_long _ _ "nuntium".data (by decide), cleanStep_long _ _ "store".data (by decide),
      cleanStep_long _ _ x hx]
    rfl
  have hcons : "nuntium/store".data ++ '/' :: x
      = 'n' :: ("untium/store".data ++ '/' :: x) := rfl
  rw [hcons, cleanChars]
  rw [← hcons]
  simp only [helems, show (decide ('n' = '/')) = false from by decide]
  simp [joinSlash]

/-- The store name of a uuid without slash is the sub-path, a slash, the uuid and the
extension. -/
theorem pathJoin_store (uuid ext : String) (hu : '/' ∉ uuid.data) (hs : '/' ∉ ext.data)
    (he : 3 ≤ ext.data.length) :
    pathJoin SUBPATH (uuid ++ ext) = SUBPATH ++ "/" ++ (uuid ++ ext) := by
  have h1 : SUBPATH ≠ "" := by decide
  have h2 : ¬ (SUBPATH = "" ∧ uuid ++ ext = "") := fun h => h1 h.1
  rw [pathJoin, if_neg h2, if_neg h1, pathClean]
  have hd : (SUBPATH ++ "/" ++ (uuid ++ ext)).data
      = "nuntium/store".data ++ '/' :: (uuid.data ++ ext.data) := by
    simp [SUBPATH]
  rw [hd, cleanChars_store _ (by simp [hu, hs]) (by rw [List.length_append]; omega)]
  apply String.ext
  rw [hd]

theorem pathJoin_store_inj (u v ext : String) (hu : '/' ∉ u.data) (hv : '/' ∉ v.data)
    (hs : '/' ∉ ext.data) (he : 3 ≤ ext.data.length)
    (h : pathJoin SUBPATH (u ++ ext) = pathJoin SUBPATH (v ++ ext)) : u = v := by
  rw [pathJoin_store u ext hu hs he, pathJoin_store v ext hv hs he] at h
  have := congrArg String.data h
  simp only [String.data_append, List.append_assoc, List.append_cancel_left_eq,
    List.append_cancel_right_eq] at this
  exact String.ext this

/-- Store names with extensions that end differently are different, whatever the uuids. -/
theorem pathJoin_ne_of_getLast (u v ext1 ext2 : String)
    (hs1 : '/' ∉ ext1.data) (he1 : 3 ≤ ext1.data.length)
    (hs2 : '/' ∉ ext2.data) (he2 : 3 ≤ ext2.data.length)
    (hlast : ext1.data.getLast? ≠ ext2.data.getLast?) :
    pathJoin SUBPATH (u ++ ext1) ≠ pathJoin SUBPATH (v ++ ext2) := by
  intro h
  have h1 := pathJoin_getLast u ext1 hs1 he1
  have h2 := pathJoin_getLast v ext2 hs2 he2
  rw [h, h2] at h1
  exact hlast h1.symm

/-- The operation `Destroy` changes no file other than the MessageRecord, the notification
record and the retrieved body of its uuid. -/
theorem Destroy_frame (env : Env) (uuid : String) (fs : FS) (p : Path)
    (hdb : p ≠ ⟨.data, dbName uuid⟩) (hind : p ≠ ⟨.data, indName uuid⟩)
    (hmms : p ≠ ⟨.data, mmsName uuid⟩) :
    (Destroy env uuid fs).2 p = fs p := by
  rw [Destroy_eq]
  simp only []
  split_ifs
  · rfl
  · simp only [FS.erase_other _ _ _ hind, FS.erase_other _ _ _ hdb]
  · simp only [FS.erase_other _ _ _ hmms, FS.erase_other _ _ _ hdb]
  · simp only [FS.erase_other _ _ _ hdb]

/-- Removing a registered Message Object whose path has a uuid leaves the store as
`Destroy` of that uuid leaves it. -/
theorem MessageRemoved_store (cfg : Cfg) (env : Env) (path : ObjectPath) (w : World)
    (handler : MessageInterface) (uuid : String)
    (h : w.service.messageHandlers path = some handler)
    (hu : getUUIDFromObjectPath path = .ok uuid) :
    ∃ e w1, MessageRemoved cfg env path w = some (e, w1) ∧
      w1.fs = (Destroy env uuid w.fs).2 := by
  unfold MessageRemoved
  simp only [h, hu]
  rcases hD : Destroy env uuid w.fs with ⟨_ | err, fs1⟩
  · simp only [appendArgs, connSend]
    by_cases ha : cfg.appendFails [Arg.objPath path] = true
    · simp only [ha, if_true]; exact ⟨_, _, rfl, rfl⟩
    · simp only [ha, if_false, Bool.false_eq_true]; exact ⟨_, _, rfl, rfl⟩
  · exact ⟨_, _, rfl, rfl⟩

/-- The files of a uuid without slash are none of the three files `Destroy` of a different
uuid without slash may change. -/
theorem storeFiles_disjoint (uuid other : String) (p : Path)
    (hu : '/' ∉ uuid.data) (ho : '/' ∉ other.data) (hne : other ≠ uuid)
    (hp : p ∈ storeFiles other) :
    p ≠ ⟨.data, dbName uuid⟩ ∧ p ≠ ⟨.data, indName uuid⟩ ∧ p ≠ ⟨.data, mmsName uuid⟩ := by
  have hdd : dbName other ≠ dbName uuid := fun h =>
    hne (pathJoin_store_inj other uuid ".db" ho hu (by decide) (by decide) h)
  have hii : indName other ≠ indName uuid := fun h =>
    hne (pathJoin_store_inj other uuid ".m-notify.ind" ho hu (by decide) (by decide) h)
  have hmm : mmsName other ≠ mmsName uuid := fun h =>
    hne (pathJoin_store_inj other uuid ".mms" ho hu (by decide) (by decide) h)
  have hdi : dbName other ≠ indName uuid :=
    pathJoin_ne_of_getLast other uuid ".db" ".m-notify.ind" (by decide) (by decide)
      (by decide) (by decide) (by decide)
  have hdm : dbName other ≠ mmsName uuid :=
    pathJoin_ne_of_getLast other uuid ".db" ".mms" (by decide) (by decide)
      (by decide) (by decide) (by decide)
  have hid : indName other ≠ dbName uuid :=
    pathJoin_ne_of_getLast other uuid ".m-notify.ind" ".db" (by decide) (by decide)
      (by decide) (by decide) (by decide)
  have him : indName other ≠ mmsName uuid :=
    pathJoin_ne_of_getLast other uuid ".m-notify.ind" ".mms" (by decide) (by decide)
      (by decide) (by decide) (by decide)
  have hmd : mmsName other ≠ dbName uuid :=
    pathJoin_ne_of_getLast other uuid ".mms" ".db" (by decide) (by decide)
      (by decide) (by decide) (by decide)
  have hmi : mmsName other ≠ indName uuid :=
    pathJoin_ne_of_getLast other uuid ".mms" ".m-notify.ind" (by decide) (by decide)
      (by decide) (by decide) (by decide)
  simp only [storeFiles, List.mem_cons, List.mem_singleton, List.not_mem_nil, or_false] at hp
  rcases hp with rfl | rfl | rfl | rfl | rfl <;>
    simp [hdd, hii, hmm, hdi, hdm, hid, him, hmd, hmi]

/-- In a store that does not hold both artifacts of a uuid, `Destroy` leaves none of the
MessageRecord, the notification record and the retrieved body. -/
theorem Destroy_clears (env : Env) (uuid : String) (fs : FS)
    (hensure : env.ensureFails ⟨.data, dbName uuid⟩ = false)
    (hexcl : ¬ (fs.has ⟨.data, indName uuid⟩ = true ∧ fs.has ⟨.data, mmsName uuid⟩ = true)) :
    (Destroy env uuid fs).2 ⟨.data, dbName uuid⟩ = none ∧
    (Destroy env uuid fs).2 ⟨.data, indName uuid⟩ = none ∧
    (Destroy env uuid fs).2 ⟨.data, mmsName uuid⟩ = none := by
  have hdi : (⟨.data, dbName uuid⟩ : Path) ≠ ⟨.data, indName uuid⟩ := by
    simp [dbName_ne_indName uuid]
  have hdm : (⟨.data, dbName uuid⟩ : Path) ≠ ⟨.data, mmsName uuid⟩ := by
    simp [dbName_ne_mmsName uuid]
  have hgone : ∀ g : FS, (g.erase ⟨.data, dbName uuid⟩) ⟨.data, dbName uuid⟩ = none :=
    fun g => FS.erase_same g _
  rw [Destroy_eq]
  by_cases hi : fs.has ⟨.data, indName uuid⟩ = true
  · have hm : fs ⟨.data, mmsName uuid⟩ = none :=
      (FS.has_eq_false _ _).1 (by simpa using fun h => hexcl ⟨hi, h⟩)
    simp only [hensure, hi, Bool.false_eq_true, if_false, if_true]
    refine ⟨?_, ?_, ?_⟩
    · rw [FS.erase_other _ _ _ hdi]; exact hgone fs
    · exact FS.erase_same _ _
    · exact FS.erase_none _ _ _ (FS.erase_none fs _ _ hm)
  · have hi0 : fs ⟨.data, indName uuid⟩ = none := (FS.has_eq_false _ _).1 (by simpa using hi)
    by_cases hm : fs.has ⟨.data, mmsName uuid⟩ = true
    · simp only [hensure, hi, hm, Bool.false_eq_true, if_false, if_true]
      refine ⟨?_, ?_, ?_⟩
      · rw [FS.erase_other _ _ _ hdm]; exact hgone fs
      · exact FS.erase_none _ _ _ (FS.erase_none fs _ _ hi0)
      · exact FS.erase_same _ _
    · have hm0 : fs ⟨.data, mmsName uuid⟩ = none := (FS.has_eq_false _ _).1 (by simpa using hm)
      simp only [hensure, hi, hm, Bool.false_eq_true, if_false]
      exact ⟨hgone fs, FS.erase_none fs _ _ hi0, FS.erase_none fs _ _ hm0⟩

/-- C12: for a uuid that is non-empty, has no slash and is neither `.` nor `..`, the uuid
read from the generated message path is the uuid, without error, and the generated path
determines the uuid.  So removing the registered Message Object at that path leaves the
store as `Destroy` of that uuid leaves it: in a store that holds the uuid's MessageRecord and
not both artifacts, none of the record, the notification record and the retrieved body
remains, and no file of any other uuid without slash is changed. -/
theorem genMessagePath_uuid (cfg : Cfg) (env : Env) (w : World) (uuid : String)
    (hne : uuid ≠ "") (hslash : '/' ∉ uuid.data) (hdot : uuid ≠ ".") (hdotdot : uuid ≠ "..") :
    getUUIDFromObjectPath (genMessagePath cfg w.service uuid) = .ok uuid ∧
    (∀ other, genMessagePath cfg w.service other = genMessagePath cfg w.service uuid →
      other = uuid) ∧
    (∀ handler,
      w.service.messageHandlers (genMessagePath cfg w.service uuid) = some handler →
      ∃ e w1, MessageRemoved cfg env (genMessagePath cfg w.service uuid) w = some (e, w1) ∧
        w1.fs = (Destroy env uuid w.fs).2 ∧
        (env.ensureFails ⟨.data, dbName uuid⟩ = false →
          w.fs.has ⟨.data, dbName uuid⟩ = true →
          ¬ (w.fs.has ⟨.data, indName uuid⟩ = true ∧ w.fs.has ⟨.data, mmsName uuid⟩ = true) →
          w1.fs ⟨.data, dbName uuid⟩ = none ∧ w1.fs ⟨.data, indName uuid⟩ = none ∧
            w1.fs ⟨.data, mmsName uuid⟩ = none) ∧
        (∀ other, other ≠ uuid → '/' ∉ other.data →
          ∀ p ∈ storeFiles other, w1.fs p = w.fs p)) := by
  have hround : getUUIDFromObjectPath (genMessagePath cfg w.service uuid) = .ok uuid := by
    have hbase : filepathBase (genMessagePath cfg w.service uuid) = uuid :=
      filepathBase_append _ uuid hne hslash
    have hp : genMessagePath cfg w.service uuid ≠ "" := by
      intro h
      have := congrArg String.data h
      simp [genMessagePath] at this
    unfold getUUIDFromObjectPath
    simp only [hp, if_false, hbase, hne, hdot, hdotdot, or_self]
  refine ⟨hround, ?_, ?_⟩
  · intro other h
    have := congrArg String.data h
    simp only [genMessagePath, String.data_append, List.append_cancel_left_eq] at this
    exact String.ext this
  · intro handler hreg
    obtain ⟨e, w1, hrun, hfs⟩ :=
      MessageRemoved_store cfg env _ w handler uuid hreg hround
    refine ⟨e, w1, hrun, hfs, ?_, ?_⟩
    · intro hensure _ hexcl
      rw [hfs]
      exact Destroy_clears env uuid w.fs hensure hexcl
    · intro other hother hos p hp
      obtain ⟨h1, h2, h3⟩ := storeFiles_disjoint uuid other p hslash hos hother hp
      rw [hfs]
      exact Destroy_frame env uuid w.fs p h1 h2 h3

/-- C12, at a concrete input: the Message Object of `abc` for the identity `ril_0`. -/
theorem genMessagePath_uuid_witness :
    getUUIDFromObjectPath (genMessagePath sampleCfg failAddedWorld.service "abc") = .ok "abc" ∧
    (∀ other, genMessagePath sampleCfg failAddedWorld.service other
        = genMessagePath sampleCfg failAddedWorld.service "abc" → other = "abc") ∧
    (∀ handler,
      failAddedWorld.service.messageHandlers
        (genMessagePath sampleCfg failAddedWorld.service "abc") = some handler →
      ∃ e w1, MessageRemoved sampleCfg sampleEnv
          (genMessagePath sampleCfg failAddedWorld.service "abc") failAddedWorld = some (e, w1) ∧
        w1.fs = (Destroy sampleEnv "abc" failAddedWorld.fs).2 ∧
        (sampleEnv.ensureFails ⟨.data, dbName "abc"⟩ = false →
          failAddedWorld.fs.has ⟨.data, dbName "abc"⟩ = true →
          ¬ (failAddedWorld.fs.has ⟨.data, indName "abc"⟩ = true ∧
            failAddedWorld.fs.has ⟨.data, mmsName "abc"⟩ = true) →
          w1.fs ⟨.data, dbName "abc"⟩ = none ∧ w1.fs ⟨.data, indName "abc"⟩ = none ∧
            w1.fs ⟨.data, mmsName "abc"⟩ = none) ∧
        (∀ other, other ≠ "abc" → '/' ∉ other.data →
          ∀ p ∈ storeFiles other, w1.fs p = failAddedWorld.fs p)) :=
  genMessagePath_uuid sampleCfg sampleEnv failAddedWorld "abc" (by decide) (by decide)
    (by decide) (by decide)

/-! ## Addresses -/

theorem intercalate_go_split (rest : List String) (h : ∀ t ∈ rest, ',' ∉ t.data) :
    ∀ acc : String, splitChar ',' (String.intercalate.go acc "," rest).data
      = splitChar ',' acc.data ++ rest.map String.data := by
  induction rest with
  | nil => intro acc; simp [String.intercalate.go]
  | cons a as ih =>
    intro acc
    have ha : ',' ∉ a.data := h a (by simp)
    have hcomma : (",": String).data = [','] := rfl
    rw [String.intercalate.go, ih (fun t ht => h t (List.mem_cons_of_mem _ ht))]
    simp only [String.data_append, hcomma, List.append_assoc, List.singleton_append,
      splitChar_append_sep, splitChar_of_not_mem _ _ ha, List.map_cons]

/-- Joining a non-empty list of strings without comma and splitting the result at the
commas gives the list back. -/
theorem splitComma_joinComma (l : List String) (hne : l ≠ []) (h : ∀ t ∈ l, ',' ∉ t.data) :
    splitComma (joinComma l) = l := by
  cases l with
  | nil => exact absurd rfl hne
  | cons a as =>
    have ha : ',' ∉ a.data := h a (by simp)
    simp only [splitComma, joinComma, String.intercalate]
    rw [intercalate_go_split as (fun t ht => h t (List.mem_cons_of_mem _ ht)),
      splitChar_of_not_mem _ _ ha]
    simp [List.map_map, Function.comp_def]

theorem PropMap.get_set_same (m : PropMap) (k : String) (v : Variant) :
    (m.set k v).get k = some v := by
  simp [PropMap.get, PropMap.set, List.lookup]

theorem PropMap.get_set_other (m : PropMap) (k j : String) (v : Variant) (h : j ≠ k) :
    (m.set k v).get j = m.get j := by
  have hjk : (j == k) = false := by simpa using h
  simp only [PropMap.get, PropMap.set, List.lookup, hjk]
  induction m with
  | nil => rfl
  | cons e es ih =>
    obtain ⟨a, b⟩ := e
    by_cases hak : a = k
    · have hf : ((a, b).1 != k) = false := by simp [hak]
      have hja : (j == a) = false := by rw [hak]; exact hjk
      rw [List.filter_cons_of_neg (by simp [hf]), ih]
      simp only [List.lookup, hja]
    · have hf : (a != k) = true := by simpa using hak
      by_cases hja : j = a
      · have hja' : (j == a) = true := by simpa using hja
        simp only [List.filter, hf, List.lookup, hja']
      · have hja' : (j == a) = false := by simpa using hja
        simp only [List.filter, hf, List.lookup, hja', ih]

theorem parseRecipients_normalizes (cfg : Cfg) (l : List String) (hne : l ≠ [])
    (h : ∀ t ∈ l, ',' ∉ t.data) :
    parseRecipients cfg (joinComma l) = l.map (normalizeAddress cfg) := by
  rw [parseRecipients, splitComma_joinComma l hne h]
  rfl

theorem parseRecipients_empty (cfg : Cfg) : parseRecipients cfg (joinComma []) = [""] := by
  have h : splitComma (joinComma []) = [""] := by decide
  rw [parseRecipients, h]
  by_cases hs : hasSuffix "" cfg.PLMN = true
  · simp [hs, dropSuffix]
  · simp [hs]

/-- C11: in the property set `parseMessage` builds, the Recipients property holds the
normalized pieces of the comma-joined To list, which are the normalized To elements, one
each and in order, when To is not empty and no element has a comma, and a single empty
entry when To is empty; the Sender property is the normalized From when From ends with
the carrier suffix and is not set at all when it does not.  `IncomingMessageFailAdded`
likewise sends a property set without Sender for a sender that lacks the suffix. -/
theorem parseMessage_addresses (cfg : Cfg) (mRetConf : MRetrieveConf) (w : World)
    (payload : Payload) (h : parseMessage cfg mRetConf w = .ok payload) :
    payload.Properties.get "Recipients"
      = some (.strs (parseRecipients cfg (joinComma mRetConf.To))) ∧
    (mRetConf.To ≠ [] → (∀ t ∈ mRetConf.To, ',' ∉ t.data) →
      parseRecipients cfg (joinComma mRetConf.To) = mRetConf.To.map (normalizeAddress cfg)) ∧
    (mRetConf.To = [] → parseRecipients cfg (joinComma mRetConf.To) = [""]) ∧
    (hasSuffix mRetConf.From cfg.PLMN = true →
      payload.Properties.get "Sender" = some (.str (normalizeAddress cfg mRetConf.From))) ∧
    (hasSuffix mRetConf.From cfg.PLMN = false → payload.Properties.get "Sender" = none) ∧
    (∀ (now : Nat) (UUID sender : String) (ch : Option ChanId) (w0 : World),
      (∀ args, cfg.appendFails args = false) → hasSuffix sender cfg.PLMN = false →
      ∃ params, (IncomingMessageFailAdded cfg now UUID sender ch w0).2.sent
          = w0.sent ++ [BusMsg.signal w0.service.payload.Path cfg.MMS_SERVICE_DBUS_IFACE
              cfg.messageAddedSignal
              [.objPath (genMessagePath cfg w0.service UUID), .props params]] ∧
        params.get "Sender" = none) := by
  have hnil : ∀ k : String, PropMap.get [] k = none := fun k => rfl
  refine ⟨?_, fun hne hc => parseRecipients_normalizes cfg _ hne hc,
    fun he => by rw [he]; exact parseRecipients_empty cfg, ?_, ?_, ?_⟩
  · unfold parseMessage at h
    cases hatt : parseAttachments mRetConf.UUID w.fs mRetConf.DataParts with
    | error err => simp [hatt] at h
    | ok atts =>
      simp only [hatt] at h
      cases h
      cases hsmil : mRetConf.Smil <;>
        simp [PropMap.get_set_other, PropMap.get_set_same]
  · intro hsuf
    unfold parseMessage at h
    cases hatt : parseAttachments mRetConf.UUID w.fs mRetConf.DataParts with
    | error err => simp [hatt] at h
    | ok atts =>
      simp only [hatt] at h
      cases h
      cases hsmil : mRetConf.Smil <;>
        simp [PropMap.get_set_other, PropMap.get_set_same, hsuf, normalizeAddress]
  · intro hsuf
    unfold parseMessage at h
    cases hatt : parseAttachments mRetConf.UUID w.fs mRetConf.DataParts with
    | error err => simp [hatt] at h
    | ok atts =>
      simp only [hatt] at h
      cases h
      cases hsmil : mRetConf.Smil <;>
      by_cases hsub : mRetConf.Subject = "" <;>
        simp [PropMap.get_set_other, hsuf, hsub, hnil]
  · intro now UUID sender ch w0 happ hsuf
    refine ⟨(PropMap.set [] "Status" (.str "received")).set "Date"
      (.str (cfg.formatTime now)), ?_, ?_⟩
    · simp only [IncomingMessageFailAdded, MessageAdded, appendArgs, happ, hsuf, connSend,
        Bool.false_eq_true, if_false]
      rfl
    · simp [PropMap.get_set_other, hnil]

/-- C11, at a concrete input: a retrieval result whose sender is a mail address. -/
theorem parseMessage_addresses_witness :
    mailPayload.Properties.get "Recipients"
      = some (.strs (parseRecipients sampleCfg (joinComma mailRetrieveConf.To))) ∧
    (mailRetrieveConf.To ≠ [] → (∀ t ∈ mailRetrieveConf.To, ',' ∉ t.data) →
      parseRecipients sampleCfg (joinComma mailRetrieveConf.To)
        = mailRetrieveConf.To.map (normalizeAddress sampleCfg)) ∧
    (mailRetrieveConf.To = [] →
      parseRecipients sampleCfg (joinComma mailRetrieveConf.To) = [""]) ∧
    (hasSuffix mailRetrieveConf.From sampleCfg.PLMN = true →
      mailPayload.Properties.get "Sender"
        = some (.str (normalizeAddress sampleCfg mailRetrieveConf.From))) ∧
    (hasSuffix mailRetrieveConf.From sampleCfg.PLMN = false →
      mailPayload.Properties.get "Sender" = none) ∧
    (∀ (now : Nat) (UUID sender : String) (ch : Option ChanId) (w0 : World),
      (∀ args, sampleCfg.appendFails args = false) → hasSuffix sender sampleCfg.PLMN = false →
      ∃ params, (IncomingMessageFailAdded sampleCfg now UUID sender ch w0).2.sent
          = w0.sent ++ [BusMsg.signal w0.service.payload.Path sampleCfg.MMS_SERVICE_DBUS_IFACE
              sampleCfg.messageAddedSignal
              [.objPath (genMessagePath sampleCfg w0.service UUID), .props params]] ∧
        params.get "Sender" = none) :=
  parseMessage_addresses sampleCfg mailRetrieveConf (sampleWorld FS.empty) mailPayload rfl

end Nuntium
